import Mathlib

/-!
Zeo: wagering game engine and market simulation.

A shallow embedding of `src/js/games.js` (the `GamesEngine` object) together with the
`Store.balance` field of `src/js/main.js` that it debits and credits, and of
`src/js/market.js` (the `MarketEngine` object) whose prices the high/low game samples, and
of the trade functions of `src/js/main.js` with the wallet key they read and write.

JavaScript numbers are idealised as exact rationals. Every engine method becomes a
function from the engine state (plus the values it reads from the page and from
`Math.random`) to the next engine state. DOM writes, logging and `Store.save` do not
feed back into the fields modelled here and are left out. Timers are not state: a callback
that a timer, an interval or an animation frame would run is an operation applied in a
sequence, and the part of `playHighLow` behind its `await` is the operation
`resolveHighLow` on a list of suspended calls.
-/

namespace Zeo

/-- The two values `activeGame` takes besides `null`. -/
inductive Game where
  | crash
  | highlow
  deriving DecidableEq, Repr

/-- The argument of `playHighLow`. -/
inductive Choice where
  | high
  | low
  deriving DecidableEq, Repr

/-- What `this.highLowPrice` can hold: `undefined` before the high/low view was started,
and afterwards whatever `MarketEngine.getPrice` returned (`null` or a number). -/
inductive JsPrice where
  | undefined
  | null
  | num (p : ℚ)
  deriving DecidableEq, Repr

/-- A call of `playHighLow` suspended at its `await`: the locals it captured. -/
structure HighLowRound where
  choice : Choice
  bet : ℚ
  startPrice : ℚ
  deriving DecidableEq, Repr

/-- The mutable fields of `GamesEngine`, and `Store.balance`. -/
structure GamesEngine where
  /-- The field `Store.balance`. -/
  balance : ℚ
  activeGame : Option Game
  crashPoint : ℚ
  currentMultiplier : ℚ
  betAmount : ℚ
  isPlaying : Bool
  hasCashedOut : Bool
  crashHistory : List ℚ
  /-- Whether `crashCtx` is a canvas context (true) or null/undefined (false). -/
  crashCtx : Bool
  highLowPrice : JsPrice
  /-- The `playHighLow` calls that are waiting for their five second timer. -/
  pendingHighLow : List HighLowRound
  deriving DecidableEq, Repr

/-- The object literal of `GamesEngine` after `init`, with the balance set at login and the
crash history read from local storage. -/
def GamesEngine.initial (balance : ℚ) (history : List ℚ) : GamesEngine :=
  { balance := balance
    activeGame := none
    crashPoint := 0
    currentMultiplier := 1.00
    betAmount := 100
    isPlaying := false
    hasCashedOut := false
    crashHistory := history
    crashCtx := false
    highLowPrice := JsPrice.undefined
    pendingHighLow := [] }

/-- The crash point drawn in `placeCrashBet` from the two successive `Math.random()`
results `rand` and `u`. -/
def drawCrashPoint (rand u : ℚ) : ℚ :=
  if rand < 0.3 then 1 + u * 1.5
  else if rand < 0.6 then 1.5 + u * 2
  else if rand < 0.85 then 2 + u * 3
  else if rand < 0.95 then 3 + u * 7
  else 5 + u * 20

/-- The method `placeCrashBet`; `amount` is `parseFloat(betInput?.value || 0)`, a number
because the bet field is a number input (an empty or missing field gives 0), `rand` and `u`
are the two `Math.random()` draws. The test `!betAmount` is the test `amount = 0`. -/
def placeCrashBet (s : GamesEngine) (amount rand u : ℚ) : GamesEngine :=
  if amount = 0 ∨ amount < 10 then s
  else if s.balance < amount then s
  else if s.isPlaying then s
  else
    { s with
      balance := s.balance - amount
      isPlaying := true
      hasCashedOut := false
      betAmount := amount
      currentMultiplier := 1.00
      crashPoint := drawCrashPoint rand u }

/-- The method `cashOutCrash`. -/
def cashOutCrash (s : GamesEngine) : GamesEngine :=
  if !s.isPlaying || s.hasCashedOut then s
  else
    { s with
      hasCashedOut := true
      balance := s.balance + s.betAmount * s.currentMultiplier }

/-- The history update of `handleCrash`: `unshift` the crash point, then `pop` once if the
list got longer than fifty. -/
def pushCrashHistory (crashPoint : ℚ) (history : List ℚ) : List ℚ :=
  let h := crashPoint :: history
  if h.length > 50 then h.dropLast else h

/-- The method `handleCrash`. -/
def handleCrash (s : GamesEngine) : GamesEngine :=
  { s with
    isPlaying := false
    crashHistory := pushCrashHistory s.crashPoint s.crashHistory }

/-- The multiplier update of one animation frame:
`currentMultiplier += 0.01 + (currentMultiplier * 0.005)`. -/
def growMultiplier (m : ℚ) : ℚ :=
  m + (0.01 + m * 0.005)

/-- The method `animateCrash`, one animation frame. -/
def animateCrash (s : GamesEngine) : GamesEngine :=
  if !s.crashCtx || s.activeGame ≠ some Game.crash then s
  else if s.isPlaying && !s.hasCashedOut then
    let s1 := { s with currentMultiplier := growMultiplier s.currentMultiplier }
    if s1.currentMultiplier ≥ s1.crashPoint then handleCrash s1 else s1
  else s

/-- The number a price is converted to by the comparison operators: `undefined` becomes
NaN (no number), `null` becomes zero. -/
def JsPrice.toNumber : JsPrice → Option ℚ
  | JsPrice.undefined => none
  | JsPrice.null => some 0
  | JsPrice.num p => some p

/-- The first part of `playHighLow`, up to the `await`; `bet` is the parsed value of the
number input `highLowBet`. The template literal calls
`startPrice.toFixed`, which throws when the cached price is not a number: the debit has
happened, and the call ends there. -/
def playHighLow (s : GamesEngine) (choice : Choice) (bet : ℚ) : GamesEngine :=
  if bet = 0 ∨ bet < 10 then s
  else if s.balance < bet then s
  else
    match s.highLowPrice with
    | JsPrice.num p =>
      { s with
        balance := s.balance - bet
        pendingHighLow := s.pendingHighLow ++ [{ choice := choice, bet := bet, startPrice := p }] }
    | _ => { s with balance := s.balance - bet }

/-- The test `isWin` of `playHighLow`. -/
def isWin (choice : Choice) (startPrice : ℚ) (endPrice : JsPrice) : Bool :=
  match endPrice.toNumber with
  | some e =>
    (decide (choice = Choice.high) && decide (e > startPrice))
      || (decide (choice = Choice.low) && decide (e < startPrice))
  | none => false

/-- The second part of `playHighLow`, after the `await`, for the pending call at index `i`. -/
def resolveHighLow (s : GamesEngine) (i : ℕ) : GamesEngine :=
  match s.pendingHighLow[i]? with
  | none => s
  | some r =>
    let s1 := { s with pendingHighLow := s.pendingHighLow.eraseIdx i }
    if isWin r.choice r.startPrice s.highLowPrice then
      { s1 with balance := s1.balance + r.bet * 1.85 }
    else s1

/-- The interval callback of `startHighLowGame`: it stores what `MarketEngine.getPrice`
returned in `highLowPrice`. -/
def pollHighLowPrice (s : GamesEngine) (p : JsPrice) : GamesEngine :=
  { s with highLowPrice := p }

/-- The engine operations that C4 ranges over, with the values each reads from outside. -/
inductive GameEvent where
  | placeCrashBet (amount rand u : ℚ)
  | animateCrash
  | cashOutCrash
  | handleCrash
  | playHighLow (choice : Choice) (bet : ℚ)
  | resolveHighLow (i : ℕ)
  | pollHighLowPrice (p : JsPrice)

/-- One operation applied to the engine. -/
def step (s : GamesEngine) : GameEvent → GamesEngine
  | GameEvent.placeCrashBet amount rand u => placeCrashBet s amount rand u
  | GameEvent.animateCrash => animateCrash s
  | GameEvent.cashOutCrash => cashOutCrash s
  | GameEvent.handleCrash => handleCrash s
  | GameEvent.playHighLow choice bet => playHighLow s choice bet
  | GameEvent.resolveHighLow i => resolveHighLow s i
  | GameEvent.pollHighLowPrice p => pollHighLowPrice s p

/-- A sequence of operations applied in order. -/
def run (s : GamesEngine) (events : List GameEvent) : GamesEngine :=
  events.foldl step s

/-- A round is in progress and the player has not cashed out, in a live crash view. -/
def Running (s : GamesEngine) : Prop :=
  s.crashCtx = true ∧ s.activeGame = some Game.crash ∧ s.isPlaying = true ∧ s.hasCashedOut = false

instance (s : GamesEngine) : Decidable (Running s) := by
  unfold Running; infer_instance

/-- An idle engine in a live crash view: balance 1000, nothing played yet. -/
def idleExample : GamesEngine :=
  { GamesEngine.initial 1000 [] with activeGame := some Game.crash, crashCtx := true }

/-- A round in progress in a live crash view: bet 100 out of 1000, multiplier 1.47, crash
point 1.5, not cashed out. -/
def runningExample : GamesEngine :=
  { idleExample with
    balance := 900
    betAmount := 100
    isPlaying := true
    currentMultiplier := 1.47
    crashPoint := 1.5 }

/-- The invariant behind balance non-negativity: the balance is not negative, the stake and
the multiplier of a round in progress are not negative, and no pending high/low call holds a
negative bet. -/
def BalanceInv (s : GamesEngine) : Prop :=
  0 ≤ s.balance ∧ (s.isPlaying = true → 0 ≤ s.betAmount ∧ 0 ≤ s.currentMultiplier) ∧
    ∀ r ∈ s.pendingHighLow, 0 ≤ r.bet

/-- The multiplier after `n` animation frames of a round that started at 1.00 and has not
ended. -/
def multiplierAfter (n : ℕ) : ℚ :=
  growMultiplier^[n] 1.00

/-- A round just started in a live crash view: bet 100, multiplier 1.00, crash point 1.5. -/
def freshExample : GamesEngine :=
  { runningExample with currentMultiplier := 1.00 }

/-- The method `stopAllGames`. The three timer handles it clears (`gameInterval`,
`highLowInterval`, `animationFrame`) are scheduler resources outside the modelled fields:
clearing them only removes polls and frames from what can run afterwards. -/
def stopAllGames (s : GamesEngine) : GamesEngine :=
  { s with
    activeGame := none
    isPlaying := false }

/-- The range of `Math.random()` for the draws an operation consumes. -/
def GameEvent.drawsInRange : GameEvent → Prop
  | GameEvent.placeCrashBet _ rand u => 0 ≤ rand ∧ rand < 1 ∧ 0 ≤ u ∧ u < 1
  | _ => True

/-- A high/low view with the price 150 cached, balance 900 and one pending call: 100 on
high, locked at 150. -/
def pendingExample : GamesEngine :=
  { GamesEngine.initial 900 [] with
    activeGame := some Game.highlow
    highLowPrice := JsPrice.num 150
    pendingHighLow := [{ choice := Choice.high, bet := 100, startPrice := 150 }] }

/-! ## Market engine (`src/js/market.js`) -/

/-- The keys of `config.volatilityScale`. -/
inductive Volatility where
  | high
  | medium
  | low
  deriving DecidableEq, Repr

/-- The table `config.volatilityScale`. -/
def volatilityScale : Volatility → ℚ
  | Volatility.high => 0.5
  | Volatility.medium => 0.2
  | Volatility.low => 0.05

/-- The constant `config.historyLength`. -/
def historyLength : ℕ := 60

/-- One registry entry: the object `markets[symbol]` together with the array
`priceHistory[symbol]`. Both are created under the same key by `init` and no code removes
or adds a key, so one record per symbol holds both. The display fields (name, icon, color)
are left out. `change` is `none` while the field is still undefined, or when the division
that computes it has a zero divisor. -/
structure Market where
  symbol : String
  price : ℚ
  volatility : Volatility
  trend : ℚ
  previousPrice : ℚ
  change : Option ℚ
  history : List ℚ
  deriving DecidableEq, Repr

/-- The mutable fields of `MarketEngine`: the registry in key order, the subscribed
callbacks (by identity) and whether `intervalId` holds a timer. -/
structure MarketEngine where
  markets : List Market
  listeners : List ℕ
  intervalId : Bool
  deriving DecidableEq, Repr

/-- One element of `defaultMarkets` as `init` stores it: `previousPrice` is the price and the
history is `Array(historyLength).fill(price)`. -/
def defaultMarket (symbol : String) (price : ℚ) (volatility : Volatility) (trend : ℚ) : Market :=
  { symbol := symbol
    price := price
    volatility := volatility
    trend := trend
    previousPrice := price
    change := none
    history := List.replicate historyLength price }

/-- The registry that `init` builds from `defaultMarkets`. -/
def defaultMarkets : List Market :=
  [ defaultMarket "BTC" 42500 Volatility.high 0.02,
    defaultMarket "ETH" 2250 Volatility.high (-0.01),
    defaultMarket "SOL" 98 Volatility.high 0.05,
    defaultMarket "ZEO" 150 Volatility.medium 0.01,
    defaultMarket "AAPL" 185 Volatility.low 0.005,
    defaultMarket "TSLA" 245 Volatility.high 0.03,
    defaultMarket "GOLD" 2025 Volatility.low 0.002,
    defaultMarket "OIL" 78 Volatility.medium (-0.01) ]

/-- The method `init` of `MarketEngine`: every default key is (re)assigned. -/
def MarketEngine.init (M : MarketEngine) : MarketEngine :=
  { M with markets := defaultMarkets }

/-- The engine as the script leaves it after its first `init`: no listener, no timer. -/
def MarketEngine.initial : MarketEngine :=
  MarketEngine.init { markets := [], listeners := [], intervalId := false }

/-- The history update of `updatePrices`: `push` the price, then `shift` once if the array
got longer than `historyLength`. -/
def pushPriceHistory (history : List ℚ) (price : ℚ) : List ℚ :=
  let h := history ++ [price]
  if h.length > historyLength then h.tail else h

/-- The new price of one market in `updatePrices`, for the `Math.random()` result `r`. -/
def nextPrice (m : Market) (r : ℚ) : ℚ :=
  let volatility := volatilityScale m.volatility
  let randomFactor := (r - 0.5) * 2
  let trendFactor := m.trend
  let change := (randomFactor * volatility) + (trendFactor * volatility)
  max 0.01 (m.price * (1 + change / 100))

/-- The body of the `forEach` in `updatePrices` for one market. -/
def updateMarket (m : Market) (r : ℚ) : Market :=
  let newPrice := nextPrice m r
  { m with
    previousPrice := m.price
    price := newPrice
    change := if m.price = 0 then none else some ((newPrice - m.price) / m.price * 100)
    history := pushPriceHistory m.history newPrice }

/-- The `forEach` of `updatePrices` over the registry in key order; `draws i` is the
`Math.random()` result for the market at position `i`. -/
def updateAll : List Market → (ℕ → ℚ) → List Market
  | [], _ => []
  | m :: ms, draws => updateMarket m (draws 0) :: updateAll ms (fun i => draws (i + 1))

/-- The method `updatePrices`. The listeners it then calls only write to the page. -/
def updatePrices (M : MarketEngine) (draws : ℕ → ℚ) : MarketEngine :=
  { M with markets := updateAll M.markets draws }

/-- The own property `markets[symbol]`, one of the keys that `init` assigned; `none` when
the registry has no such key. What a read of an absent key then yields, undefined or a
member inherited from `Object.prototype`, is decided by `getMarket` and
`getPriceHistory`; an inherited member has no `price` field, so `getPrice` needs no such
case. -/
def MarketEngine.lookup (M : MarketEngine) (symbol : String) : Option Market :=
  M.markets.find? (fun m => m.symbol == symbol)

/-- The method `getPrice`: `this.markets[symbol]?.price || null`. -/
def getPrice (M : MarketEngine) (symbol : String) : JsPrice :=
  match M.lookup symbol with
  | some m => if m.price = 0 then JsPrice.null else JsPrice.num m.price
  | none => JsPrice.null

/-- The method `setTrend`. -/
def setTrend (M : MarketEngine) (symbol : String) (trend : ℚ) : MarketEngine :=
  { M with markets := M.markets.map (fun m => if m.symbol = symbol then { m with trend := trend } else m) }

/-- The `forEach` of `simulateEvent`: each market consumes one draw, and a second one when
it is not skipped. -/
def simulateTrends (trend : ℚ) : List Market → (ℕ → ℚ) → List Market
  | [], _ => []
  | m :: ms, draws =>
    if draws 0 > 0.7 then m :: simulateTrends trend ms (fun i => draws (i + 1))
    else { m with trend := trend * (draws 1 * 0.5 + 0.5) }
      :: simulateTrends trend ms (fun i => draws (i + 2))

/-- The synchronous part of the method `simulateEvent`. -/
def simulateEvent (M : MarketEngine) (kind : String) (intensity : ℚ) (draws : ℕ → ℚ) :
    MarketEngine :=
  let trend := if kind = "bull" then intensity else -intensity
  { M with markets := simulateTrends trend M.markets draws }

/-- The `forEach` of the timeout callback of `simulateEvent`. -/
def resetAll : List Market → (ℕ → ℚ) → List Market
  | [], _ => []
  | m :: ms, draws =>
    { m with trend := (draws 0 - 0.5) * 0.1 } :: resetAll ms (fun i => draws (i + 1))

/-- The timeout callback of `simulateEvent`, which resets every trend. -/
def resetTrends (M : MarketEngine) (draws : ℕ → ℚ) : MarketEngine :=
  { M with markets := resetAll M.markets draws }

/-- The market operations that C20 ranges over, with the draws each consumes. -/
inductive MarketEvent where
  | init
  | updatePrices (draws : ℕ → ℚ)
  | setTrend (symbol : String) (trend : ℚ)
  | simulateEvent (kind : String) (intensity : ℚ) (draws : ℕ → ℚ)
  | resetTrends (draws : ℕ → ℚ)

/-- One market operation applied to the engine. -/
def marketStep (M : MarketEngine) : MarketEvent → MarketEngine
  | MarketEvent.init => M.init
  | MarketEvent.updatePrices draws => updatePrices M draws
  | MarketEvent.setTrend symbol trend => setTrend M symbol trend
  | MarketEvent.simulateEvent kind intensity draws => simulateEvent M kind intensity draws
  | MarketEvent.resetTrends draws => resetTrends M draws

/-- A sequence of market operations applied in order. -/
def marketRun (M : MarketEngine) (events : List MarketEvent) : MarketEngine :=
  events.foldl marketStep M

/-- The floor that `updatePrices` keeps every price and every divisor above. -/
def PriceInv (M : MarketEngine) : Prop :=
  ∀ m ∈ M.markets, 0.01 ≤ m.price ∧ 0.01 ≤ m.previousPrice

/-- The reference symbol of the high/low game. -/
def referenceSymbol : String := "ZEO"

/-- The assignment `this.highLowPrice = MarketEngine.getPrice('ZEO')`, made by
`startHighLowGame` and by its 500 ms interval callback. -/
def pollMarket (M : MarketEngine) (s : GamesEngine) : GamesEngine :=
  pollHighLowPrice s (getPrice M referenceSymbol)

/-- The method `startHighLowGame`. -/
def startHighLowGame (M : MarketEngine) (s : GamesEngine) : GamesEngine :=
  pollMarket M { stopAllGames s with activeGame := some Game.highlow }

/-- The method `start`: a timer is created only when none is held. -/
def MarketEngine.start (M : MarketEngine) : MarketEngine :=
  if M.intervalId then M else { M with intervalId := true }

/-- The method `stop`: the timer, when one is held, is cleared. -/
def MarketEngine.stop (M : MarketEngine) : MarketEngine :=
  if M.intervalId then { M with intervalId := false } else M

/-- The method `subscribe`: the callback is pushed at the end of `listeners`. -/
def subscribe (M : MarketEngine) (callback : ℕ) : MarketEngine :=
  { M with listeners := M.listeners ++ [callback] }

/-- The function `subscribe` returns: `listeners.filter(cb => cb !== callback)`. -/
def unsubscribe (M : MarketEngine) (callback : ℕ) : MarketEngine :=
  { M with listeners := M.listeners.filter (fun cb => cb ≠ callback) }

/-- The method `notifyListeners`, as the calls it makes in order: each is a callback with
the registry it is handed (`this.markets`, whose records carry the histories). -/
def notifyListeners (M : MarketEngine) : List (ℕ × List Market) :=
  M.listeners.map (fun callback => (callback, M.markets))

/-- The calls one `updatePrices` makes: `notifyListeners` runs after the `forEach` over the
registry. -/
def updatePricesCalls (M : MarketEngine) (draws : ℕ → ℚ) : List (ℕ × List Market) :=
  notifyListeners (updatePrices M draws)

/-- The property names every plain object such as `markets` and `priceHistory` inherits
from `Object.prototype`; each names a function, and `__proto__` the prototype object, so a
read under such a name is truthy. -/
def objectPrototypeKeys : List String :=
  [ "constructor", "__defineGetter__", "__defineSetter__", "hasOwnProperty",
    "__lookupGetter__", "__lookupSetter__", "isPrototypeOf", "propertyIsEnumerable",
    "toString", "valueOf", "__proto__", "toLocaleString" ]

/-- What `getMarket` returns: a market record, the inherited member of the given name, or
null. -/
inductive MarketRead where
  | market (m : Market)
  | inherited (name : String)
  | null
  deriving DecidableEq, Repr

/-- What `getPriceHistory` returns: an array of prices or the inherited member of the given
name. -/
inductive HistoryRead where
  | array (prices : List ℚ)
  | inherited (name : String)
  deriving DecidableEq, Repr

/-- The method `getMarket`: `this.markets[symbol] || null`. An own key gives its record; an
absent key that is an inherited property name gives that member, which is truthy, so
`|| null` does not apply; any other absent key gives undefined and so null. -/
def getMarket (M : MarketEngine) (symbol : String) : MarketRead :=
  match M.lookup symbol with
  | some m => MarketRead.market m
  | none =>
    if symbol ∈ objectPrototypeKeys then MarketRead.inherited symbol else MarketRead.null

/-- The method `getPriceHistory`: `this.priceHistory[symbol] || []`. An own key gives its
array (an array is truthy even when empty); an absent key that is an inherited property
name gives that member; any other absent key gives the empty array. -/
def getPriceHistory (M : MarketEngine) (symbol : String) : HistoryRead :=
  match M.lookup symbol with
  | some m => HistoryRead.array m.history
  | none =>
    if symbol ∈ objectPrototypeKeys then HistoryRead.inherited symbol else HistoryRead.array []

/-- Every history of the registry holds exactly `historyLength` prices. -/
def HistoryInv (M : MarketEngine) : Prop :=
  ∀ m ∈ M.markets, m.history.length = historyLength

/-- The method `setQuickBet`. `input` is `none` when the page has no bet field, and else
the integer `parseInt(input.value || 0)`; the field then shows
`Math.max(10, parseInt(input.value || 0) + amount)` and `betAmount` is read back from it. -/
def setQuickBet (s : GamesEngine) (input : Option ℤ) (amount : ℤ) : GamesEngine :=
  match input with
  | none => s
  | some v => { s with betAmount := ((max 10 (v + amount) : ℤ) : ℚ) }

/-! ## Trading and the wallet (`src/js/main.js`, `src/js/auth.js`) -/

/-- An element of `Store.portfolio` (the timestamp is left out). -/
structure Position where
  symbol : String
  entry : ℚ
  qty : ℤ
  type : String
  deriving DecidableEq, Repr

/-- The session state outside the two engines: `Store.balance` is the field `balance` of
`games`, `walletMain` is the number stored under the local-storage key `wallet_main`
(`none` when the key is absent), and `portfolio` is `Store.portfolio`. -/
structure AppState where
  games : GamesEngine
  walletMain : Option ℚ
  portfolio : List Position
  deriving DecidableEq, Repr

/-- The expression `x || d` for a price `x`: null, undefined and zero give `d`. -/
def jsOr (x : JsPrice) (d : ℚ) : ℚ :=
  match x with
  | JsPrice.num p => if p = 0 then d else p
  | _ => d

/-- The expression `parseFloat(localStorage.getItem('wallet_main')) || 0`. -/
def AppState.mainBalance (a : AppState) : ℚ :=
  match a.walletMain with
  | some w => w
  | none => 0

/-- The wallet and store initialisation of `handleLogin` and `socialLogin`: an absent
`wallet_main` is set to 10000, and `Store.balance` becomes
`parseFloat(localStorage.getItem('wallet_main')) || 10000`. -/
def login (a : AppState) : AppState :=
  let wallet := match a.walletMain with
    | some w => w
    | none => 10000
  { a with
    walletMain := some wallet
    games := { a.games with balance := if wallet = 0 then 10000 else wallet } }

/-- A method of `GamesEngine` run in the session: it reads and writes `Store.balance` and
the engine fields; `Store.save` then writes the keys `zeo_balance` and `zeo_portfolio`,
never `wallet_main`. -/
def gameStep (a : AppState) (e : GameEvent) : AppState :=
  { a with games := step a.games e }

/-- The function `executeTrade`; `qty` is `parseInt` of the quantity field (a number
input) and `M` the market engine at the time of the call. -/
def executeTrade (M : MarketEngine) (a : AppState) (type : String) (qty : ℤ) : AppState :=
  let price := jsOr (getPrice M "ZEO") 150
  let cost := (qty : ℚ) * price
  let mainBalance := a.mainBalance
  if qty ≤ 0 then a
  else if mainBalance < cost then a
  else
    let newBalance := mainBalance - cost
    { a with
      walletMain := some newBalance
      games := { a.games with balance := newBalance }
      portfolio := a.portfolio ++ [{ symbol := "ZEO", entry := price, qty := qty, type := type }] }

/-- The amount `closePosition` adds to the balance for the position `pos`: the principal
`entry * qty` plus the profit or loss at the current price. -/
def totalReturn (M : MarketEngine) (pos : Position) : ℚ :=
  let currentPrice := jsOr (getPrice M pos.symbol) pos.entry
  let pnl :=
    if pos.type = "buy" then (currentPrice - pos.entry) * pos.qty
    else (pos.entry - currentPrice) * pos.qty
  (pos.entry * pos.qty) + pnl

/-- The function `closePosition`. With no position at `index` the read of `pos.symbol`
throws and nothing is written. -/
def closePosition (M : MarketEngine) (a : AppState) (index : ℕ) : AppState :=
  match a.portfolio[index]? with
  | none => a
  | some pos =>
    { a with
      walletMain := some (a.mainBalance + totalReturn M pos)
      games := { a.games with balance := a.mainBalance + totalReturn M pos }
      portfolio := a.portfolio.eraseIdx index }

/-- The trade operations that C29 ranges over, each with the market engine as it is when
the operation runs. -/
inductive TradeEvent where
  | executeTrade (M : MarketEngine) (type : String) (qty : ℤ)
  | closePosition (M : MarketEngine) (index : ℕ)

/-- One trade operation applied to the session. -/
def tradeStep (a : AppState) : TradeEvent → AppState
  | TradeEvent.executeTrade M type qty => executeTrade M a type qty
  | TradeEvent.closePosition M index => closePosition M a index

/-- A sequence of trade operations applied in order. -/
def tradeRun (a : AppState) (events : List TradeEvent) : AppState :=
  events.foldl tradeStep a

/-- Every price of the registry is positive. -/
def PricesPositive (M : MarketEngine) : Prop :=
  ∀ m ∈ M.markets, 0 < m.price

/-- The condition under which a trade operation keeps the balance from going below zero:
prices are positive, and a position that is not a buy is closed at no more than twice its
entry price. -/
def TradeEvent.covered (a : AppState) : TradeEvent → Prop
  | TradeEvent.executeTrade M _ _ => PricesPositive M
  | TradeEvent.closePosition M index =>
    PricesPositive M ∧
      ∀ pos, a.portfolio[index]? = some pos → pos.type ≠ "buy" →
        jsOr (getPrice M pos.symbol) pos.entry ≤ 2 * pos.entry

/-- Every operation of the sequence is covered in the state it runs in. -/
def Covered : AppState → List TradeEvent → Prop
  | _, [] => True
  | a, e :: es => e.covered a ∧ Covered (tradeStep a e) es

/-- The invariant behind the amended C29: the wallet balance is not negative and every
open position has a positive quantity and a positive entry price. -/
def TradeInv (a : AppState) : Prop :=
  0 ≤ a.mainBalance ∧ ∀ pos ∈ a.portfolio, 0 < pos.qty ∧ 0 < pos.entry

/-- The invariant behind C28: while a round is playing, the multiplier is at least 1 and
at most the crash point, and the stake is not negative. -/
def PayoutInv (s : GamesEngine) : Prop :=
  s.isPlaying = true →
    1 ≤ s.currentMultiplier ∧ s.currentMultiplier ≤ s.crashPoint ∧ 0 ≤ s.betAmount

/-- A session right after a first login: no wallet key yet, nothing played or traded. -/
def sessionExample : AppState :=
  login { games := GamesEngine.initial 0 [], walletMain := none, portfolio := [] }

/-- The market after a surge of ZEO: its trend is set to 1000 and one tick runs with all
draws 0.5, which triples the price from 150 to 450. -/
def surgeMarket : MarketEngine :=
  updatePrices (setTrend MarketEngine.initial "ZEO" 1000) (fun _ => 0.5)

/-- The session after a first login with a wallet of 150 instead of the default. -/
def smallWallet : AppState :=
  { games := GamesEngine.initial 150 [], walletMain := some 150, portfolio := [] }

/-! ## Helper lemmas -/

theorem placeCrashBet_reject_low (s : GamesEngine) (amount rand u : ℚ) (h : amount < 10) :
    placeCrashBet s amount rand u = s := by
  simp [placeCrashBet, h]

theorem placeCrashBet_reject_balance (s : GamesEngine) (amount rand u : ℚ)
    (h : s.balance < amount) : placeCrashBet s amount rand u = s := by
  unfold placeCrashBet
  split_ifs <;> rfl

theorem placeCrashBet_reject_playing (s : GamesEngine) (amount rand u : ℚ)
    (h : s.isPlaying = true) : placeCrashBet s amount rand u = s := by
  unfold placeCrashBet
  split_ifs <;> rfl

theorem placeCrashBet_accept (s : GamesEngine) (amount rand u : ℚ)
    (hidle : s.isPlaying = false) (hmin : 10 ≤ amount) (hbal : amount ≤ s.balance) :
    placeCrashBet s amount rand u =
      { s with
        balance := s.balance - amount
        isPlaying := true
        hasCashedOut := false
        betAmount := amount
        currentMultiplier := 1.00
        crashPoint := drawCrashPoint rand u } := by
  have h0 : ¬ (amount = 0 ∨ amount < 10) := by
    rintro (h | h)
    · rw [h] at hmin; norm_num at hmin
    · exact absurd hmin (not_le.mpr h)
  unfold placeCrashBet
  rw [if_neg h0, if_neg (not_lt.mpr hbal)]
  simp [hidle]

theorem cashOutCrash_noop (s : GamesEngine) (h : s.isPlaying = false ∨ s.hasCashedOut = true) :
    cashOutCrash s = s := by
  unfold cashOutCrash
  rcases h with h | h <;> simp [h]

theorem cashOutCrash_pay (s : GamesEngine) (hp : s.isPlaying = true)
    (hc : s.hasCashedOut = false) :
    cashOutCrash s =
      { s with
        hasCashedOut := true
        balance := s.balance + s.betAmount * s.currentMultiplier } := by
  unfold cashOutCrash
  simp [hp, hc]

theorem animateCrash_not_running (s : GamesEngine)
    (h : s.isPlaying = false ∨ s.hasCashedOut = true) : animateCrash s = s := by
  unfold animateCrash
  rcases h with h | h <;> simp [h]

theorem growMultiplier_nonneg (m : ℚ) (h : 0 ≤ m) : 0 ≤ growMultiplier m := by
  unfold growMultiplier
  norm_num
  linarith

theorem placeCrashBet_inv (s : GamesEngine) (amount rand u : ℚ) (h : BalanceInv s) :
    BalanceInv (placeCrashBet s amount rand u) := by
  unfold placeCrashBet
  split_ifs with h1 h2 h3
  · exact h
  · exact h
  · exact h
  · obtain ⟨_, _, hr⟩ := h
    push_neg at h1
    refine ⟨?_, ?_, hr⟩
    · simp only; linarith
    · intro _
      simp only
      constructor
      · linarith [h1.2]
      · norm_num

theorem cashOutCrash_inv (s : GamesEngine) (h : BalanceInv s) : BalanceInv (cashOutCrash s) := by
  unfold cashOutCrash
  split_ifs with h1
  · exact h
  · obtain ⟨hb, hp, hr⟩ := h
    have hplay : s.isPlaying = true := by
      cases hq : s.isPlaying
      · simp [hq] at h1
      · rfl
    obtain ⟨h3, h4⟩ := hp hplay
    refine ⟨?_, fun _ => ⟨h3, h4⟩, hr⟩
    simp only
    have := mul_nonneg h3 h4
    linarith

theorem handleCrash_inv (s : GamesEngine) (h : BalanceInv s) : BalanceInv (handleCrash s) := by
  obtain ⟨hb, _, hr⟩ := h
  refine ⟨hb, ?_, hr⟩
  intro hp
  simp [handleCrash] at hp

theorem animateCrash_inv (s : GamesEngine) (h : BalanceInv s) : BalanceInv (animateCrash s) := by
  have hgrow : BalanceInv { s with currentMultiplier := growMultiplier s.currentMultiplier } := by
    obtain ⟨hb, hp, hr⟩ := h
    refine ⟨hb, ?_, hr⟩
    intro hplay
    obtain ⟨h4, h5⟩ := hp hplay
    exact ⟨h4, growMultiplier_nonneg _ h5⟩
  unfold animateCrash
  split_ifs with h1 h2
  · exact h
  · dsimp only
    split_ifs
    · exact handleCrash_inv _ hgrow
    · exact hgrow
  · exact h

theorem playHighLow_inv (s : GamesEngine) (choice : Choice) (bet : ℚ) (h : BalanceInv s) :
    BalanceInv (playHighLow s choice bet) := by
  unfold playHighLow
  split_ifs with h1 h2
  · exact h
  · exact h
  · obtain ⟨hb, hp, hr⟩ := h
    push_neg at h1 h2
    have hbet : 0 ≤ bet := by linarith [h1.2]
    split
    · refine ⟨by simp only; linarith, hp, ?_⟩
      intro r hmem
      simp only [List.mem_append, List.mem_singleton] at hmem
      rcases hmem with hmem | hmem
      · exact hr r hmem
      · rw [hmem]; exact hbet
    · exact ⟨by simp only; linarith, hp, hr⟩

theorem resolveHighLow_inv (s : GamesEngine) (i : ℕ) (h : BalanceInv s) :
    BalanceInv (resolveHighLow s i) := by
  unfold resolveHighLow
  obtain ⟨hb, hp, hr⟩ := h
  split
  · exact ⟨hb, hp, hr⟩
  · rename_i r hget
    have hrbet : 0 ≤ r.bet := hr r (List.getElem?_mem hget)
    have hrest : ∀ q ∈ s.pendingHighLow.eraseIdx i, 0 ≤ q.bet :=
      fun q hq => hr q (List.mem_of_mem_eraseIdx hq)
    simp only
    split_ifs
    · refine ⟨?_, hp, hrest⟩
      simp only
      have : 0 ≤ r.bet * 1.85 := mul_nonneg hrbet (by norm_num)
      linarith
    · exact ⟨hb, hp, hrest⟩

theorem step_inv (s : GamesEngine) (e : GameEvent) (h : BalanceInv s) : BalanceInv (step s e) := by
  cases e with
  | placeCrashBet amount rand u => exact placeCrashBet_inv s amount rand u h
  | animateCrash => exact animateCrash_inv s h
  | cashOutCrash => exact cashOutCrash_inv s h
  | handleCrash => exact handleCrash_inv s h
  | playHighLow choice bet => exact playHighLow_inv s choice bet h
  | resolveHighLow i => exact resolveHighLow_inv s i h
  | pollHighLowPrice p => exact h

theorem run_inv (events : List GameEvent) (s : GamesEngine) (h : BalanceInv s) :
    BalanceInv (run s events) := by
  induction events generalizing s with
  | nil => exact h
  | cons e es ih => exact ih (step s e) (step_inv s e h)

theorem animateCrash_running (s : GamesEngine) (h : Running s) :
    animateCrash s =
      if growMultiplier s.currentMultiplier ≥ s.crashPoint then
        handleCrash { s with currentMultiplier := growMultiplier s.currentMultiplier }
      else { s with currentMultiplier := growMultiplier s.currentMultiplier } := by
  obtain ⟨h1, h2, h3, h4⟩ := h
  unfold animateCrash
  simp [h1, h2, h3, h4]

theorem growMultiplier_iterate_lower (n : ℕ) (m : ℚ) (hm : 1 ≤ m) :
    m + 0.015 * n ≤ growMultiplier^[n] m := by
  induction n with
  | zero => simp
  | succ k ih =>
    rw [Function.iterate_succ_apply']
    have hg : ∀ x : ℚ, growMultiplier x = x + (0.01 + x * 0.005) := fun _ => rfl
    rw [hg]
    have hk : (0 : ℚ) ≤ k := Nat.cast_nonneg k
    generalize growMultiplier^[k] m = y at ih ⊢
    push_cast
    norm_num at ih ⊢
    nlinarith

theorem animateCrash_iterate_playing (n : ℕ) (s : GamesEngine) (h : Running s)
    (hp : (animateCrash^[n] s).isPlaying = true) :
    animateCrash^[n] s = { s with currentMultiplier := growMultiplier^[n] s.currentMultiplier } ∧
      (1 ≤ n → growMultiplier^[n] s.currentMultiplier < s.crashPoint) := by
  induction n with
  | zero => simp
  | succ k ih =>
    rw [Function.iterate_succ_apply'] at hp ⊢
    have hk : (animateCrash^[k] s).isPlaying = true := by
      cases hq : (animateCrash^[k] s).isPlaying
      · rw [animateCrash_not_running _ (Or.inl hq), hq] at hp
        cases hp
      · rfl
    obtain ⟨ih1, _⟩ := ih hk
    have hrun : Running (animateCrash^[k] s) := by
      rw [ih1]
      exact h
    rw [animateCrash_running _ hrun] at hp ⊢
    rw [Function.iterate_succ_apply']
    rw [ih1] at hp ⊢
    dsimp only at hp ⊢
    split_ifs at hp ⊢ with hc
    · simp [handleCrash] at hp
    · exact ⟨rfl, fun _ => not_le.mp hc⟩

theorem multiplierAfter_succ (n : ℕ) :
    multiplierAfter (n + 1) = multiplierAfter n + (0.01 + multiplierAfter n * 0.005) := by
  unfold multiplierAfter
  rw [Function.iterate_succ_apply']
  rfl

theorem multiplierAfter_ge_one (n : ℕ) : 1 ≤ multiplierAfter n := by
  have h := growMultiplier_iterate_lower n 1 le_rfl
  have hk : (0 : ℚ) ≤ n := Nat.cast_nonneg n
  have hm : multiplierAfter n = growMultiplier^[n] 1 := by
    unfold multiplierAfter
    norm_num
  rw [hm]
  have : (0 : ℚ) ≤ 0.015 * n := mul_nonneg (by norm_num) hk
  linarith

theorem pushCrashHistory_eq_take (c : ℚ) (h : List ℚ) (hlen : h.length ≤ 50) :
    pushCrashHistory c h = (c :: h).take 50 := by
  unfold pushCrashHistory
  dsimp only
  split_ifs with hgt
  · have h50 : (c :: h).length - 1 = 50 := by
      simp only [List.length_cons] at hgt ⊢
      omega
    rw [List.dropLast_eq_take, h50]
  · have hle : (c :: h).length ≤ 50 := not_lt.mp hgt
    exact (List.take_of_length_le hle).symm

theorem drawCrashPoint_ge_one (rand u : ℚ) (hu : 0 ≤ u) : 1 ≤ drawCrashPoint rand u := by
  unfold drawCrashPoint
  split_ifs <;> norm_num <;> linarith

theorem growMultiplier_ge (m : ℚ) (h : 1 ≤ m) : 1 ≤ growMultiplier m := by
  unfold growMultiplier
  norm_num
  linarith

theorem step_round_values (s : GamesEngine) (e : GameEvent) (he : e.drawsInRange)
    (h : 1 ≤ s.crashPoint ∧ 1 ≤ s.currentMultiplier) :
    1 ≤ (step s e).crashPoint ∧ 1 ≤ (step s e).currentMultiplier := by
  obtain ⟨hc, hm⟩ := h
  cases e with
  | placeCrashBet amount rand u =>
    simp only [step, placeCrashBet]
    split_ifs
    · exact ⟨hc, hm⟩
    · exact ⟨hc, hm⟩
    · exact ⟨hc, hm⟩
    · exact ⟨drawCrashPoint_ge_one rand u he.2.2.1, by norm_num⟩
  | animateCrash =>
    simp only [step, animateCrash]
    split_ifs
    · exact ⟨hc, hm⟩
    · exact ⟨hc, growMultiplier_ge _ hm⟩
    · exact ⟨hc, growMultiplier_ge _ hm⟩
    · exact ⟨hc, hm⟩
  | cashOutCrash =>
    simp only [step, cashOutCrash]
    split_ifs <;> exact ⟨hc, hm⟩
  | handleCrash => exact ⟨hc, hm⟩
  | playHighLow choice bet =>
    simp only [step, playHighLow]
    split_ifs
    · exact ⟨hc, hm⟩
    · exact ⟨hc, hm⟩
    · split <;> exact ⟨hc, hm⟩
  | resolveHighLow i =>
    simp only [step, resolveHighLow]
    split
    · exact ⟨hc, hm⟩
    · split_ifs <;> exact ⟨hc, hm⟩
  | pollHighLowPrice p => exact ⟨hc, hm⟩

theorem run_round_values (events : List GameEvent) (s : GamesEngine)
    (hev : ∀ e ∈ events, e.drawsInRange)
    (h : 1 ≤ s.crashPoint ∧ 1 ≤ s.currentMultiplier) :
    1 ≤ (run s events).crashPoint ∧ 1 ≤ (run s events).currentMultiplier := by
  induction events generalizing s with
  | nil => exact h
  | cons e es ih =>
    exact ih (step s e) (fun x hx => hev x (List.mem_cons_of_mem e hx))
      (step_round_values s e (hev e (List.mem_cons_self e es)) h)

theorem playHighLow_reject (s : GamesEngine) (choice : Choice) (bet : ℚ)
    (h : bet < 10 ∨ s.balance < bet) : playHighLow s choice bet = s := by
  unfold playHighLow
  rcases h with h | h
  · rw [if_pos (Or.inr h)]
  · split_ifs <;> rfl

theorem playHighLow_accept_balance (s : GamesEngine) (choice : Choice) (bet : ℚ)
    (hmin : 10 ≤ bet) (hbal : bet ≤ s.balance) :
    (playHighLow s choice bet).balance = s.balance - bet := by
  have h0 : ¬ (bet = 0 ∨ bet < 10) := by
    rintro (h | h)
    · rw [h] at hmin; norm_num at hmin
    · exact absurd hmin (not_le.mpr h)
  unfold playHighLow
  rw [if_neg h0, if_neg (not_lt.mpr hbal)]
  split <;> rfl

theorem playHighLow_accept_pending (s : GamesEngine) (choice : Choice) (bet p : ℚ)
    (hmin : 10 ≤ bet) (hbal : bet ≤ s.balance) (hcache : s.highLowPrice = JsPrice.num p) :
    (playHighLow s choice bet).pendingHighLow
      = s.pendingHighLow ++ [{ choice := choice, bet := bet, startPrice := p }] := by
  have h0 : ¬ (bet = 0 ∨ bet < 10) := by
    rintro (h | h)
    · rw [h] at hmin; norm_num at hmin
    · exact absurd hmin (not_le.mpr h)
  unfold playHighLow
  rw [if_neg h0, if_neg (not_lt.mpr hbal), hcache]

theorem resolveHighLow_balance (s : GamesEngine) (i : ℕ) (r : HighLowRound)
    (hget : s.pendingHighLow[i]? = some r) :
    (resolveHighLow s i).balance
      = s.balance + (if isWin r.choice r.startPrice s.highLowPrice then r.bet * 1.85 else 0) := by
  unfold resolveHighLow
  rw [hget]
  dsimp only
  split_ifs
  · rfl
  · simp

theorem isWin_num (choice : Choice) (startPrice e : ℚ) :
    isWin choice startPrice (JsPrice.num e) = true ↔
      (choice = Choice.high ∧ e > startPrice) ∨ (choice = Choice.low ∧ e < startPrice) := by
  simp [isWin, JsPrice.toNumber]

theorem updateAll_getElem? (ms : List Market) (draws : ℕ → ℚ) (i : ℕ) :
    (updateAll ms draws)[i]? = (ms[i]?).map (fun m => updateMarket m (draws i)) := by
  induction ms generalizing draws i with
  | nil => simp [updateAll]
  | cons m rest ih =>
    cases i with
    | zero => simp [updateAll]
    | succ j =>
      simp only [updateAll, List.getElem?_cons_succ]
      exact ih (fun k => draws (k + 1)) j

theorem pushPriceHistory_last (h : List ℚ) (q : ℚ) :
    (pushPriceHistory h q).getLast? = some q := by
  unfold pushPriceHistory
  dsimp only
  split_ifs with hgt
  · cases h with
    | nil => simp [historyLength] at hgt
    | cons a t => simp [List.getLast?_concat]
  · exact List.getLast?_concat h

theorem pushPriceHistory_suffix (h : List ℚ) (q : ℚ) :
    pushPriceHistory h q <:+ h ++ [q] := by
  unfold pushPriceHistory
  dsimp only
  split_ifs
  · exact List.tail_suffix _
  · exact List.suffix_refl _

theorem updateMarket_floor (m : Market) (r : ℚ) (h : 0.01 ≤ m.price) :
    0.01 ≤ (updateMarket m r).price ∧ 0.01 ≤ (updateMarket m r).previousPrice :=
  ⟨le_max_left _ _, h⟩

theorem updateAll_mem (ms : List Market) (draws : ℕ → ℚ) (x : Market)
    (hx : x ∈ updateAll ms draws) : ∃ m ∈ ms, ∃ r, x = updateMarket m r := by
  induction ms generalizing draws with
  | nil => simp [updateAll] at hx
  | cons m rest ih =>
    simp only [updateAll, List.mem_cons] at hx
    rcases hx with hx | hx
    · exact ⟨m, List.mem_cons_self m rest, draws 0, hx⟩
    · obtain ⟨m0, hm0, r, hr⟩ := ih _ hx
      exact ⟨m0, List.mem_cons_of_mem m hm0, r, hr⟩

theorem simulateTrends_mem (trend : ℚ) (ms : List Market) (draws : ℕ → ℚ) (x : Market)
    (hx : x ∈ simulateTrends trend ms draws) :
    ∃ m ∈ ms, x.price = m.price ∧ x.previousPrice = m.previousPrice := by
  induction ms generalizing draws with
  | nil => simp [simulateTrends] at hx
  | cons m rest ih =>
    unfold simulateTrends at hx
    split_ifs at hx
    · rcases List.mem_cons.mp hx with hx | hx
      · exact ⟨m, List.mem_cons_self m rest, by rw [hx], by rw [hx]⟩
      · obtain ⟨m0, hm0, h1, h2⟩ := ih _ hx
        exact ⟨m0, List.mem_cons_of_mem m hm0, h1, h2⟩
    · rcases List.mem_cons.mp hx with hx | hx
      · exact ⟨m, List.mem_cons_self m rest, by rw [hx], by rw [hx]⟩
      · obtain ⟨m0, hm0, h1, h2⟩ := ih _ hx
        exact ⟨m0, List.mem_cons_of_mem m hm0, h1, h2⟩

theorem resetAll_mem (ms : List Market) (draws : ℕ → ℚ) (x : Market)
    (hx : x ∈ resetAll ms draws) :
    ∃ m ∈ ms, x.price = m.price ∧ x.previousPrice = m.previousPrice := by
  induction ms generalizing draws with
  | nil => simp [resetAll] at hx
  | cons m rest ih =>
    unfold resetAll at hx
    rcases List.mem_cons.mp hx with hx | hx
    · exact ⟨m, List.mem_cons_self m rest, by rw [hx], by rw [hx]⟩
    · obtain ⟨m0, hm0, h1, h2⟩ := ih _ hx
      exact ⟨m0, List.mem_cons_of_mem m hm0, h1, h2⟩

theorem init_priceInv (M : MarketEngine) : PriceInv M.init := by
  intro m hm
  simp only [MarketEngine.init, defaultMarkets, List.mem_cons, List.mem_singleton,
    List.not_mem_nil, or_false] at hm
  rcases hm with h | h | h | h | h | h | h | h <;> rw [h] <;>
    exact ⟨by norm_num [defaultMarket], by norm_num [defaultMarket]⟩

theorem marketStep_priceInv (M : MarketEngine) (e : MarketEvent) (h : PriceInv M) :
    PriceInv (marketStep M e) := by
  cases e with
  | init => exact init_priceInv M
  | updatePrices draws =>
    intro x hx
    obtain ⟨m, hm, r, hr⟩ := updateAll_mem M.markets draws x hx
    rw [hr]
    exact updateMarket_floor m r (h m hm).1
  | setTrend symbol trend =>
    intro x hx
    simp only [marketStep, setTrend, List.mem_map] at hx
    obtain ⟨m, hm, hr⟩ := hx
    split_ifs at hr <;> rw [← hr] <;> exact h m hm
  | simulateEvent kind intensity draws =>
    intro x hx
    obtain ⟨m, hm, h1, h2⟩ := simulateTrends_mem _ M.markets draws x hx
    rw [h1, h2]
    exact h m hm
  | resetTrends draws =>
    intro x hx
    obtain ⟨m, hm, h1, h2⟩ := resetAll_mem M.markets draws x hx
    rw [h1, h2]
    exact h m hm

theorem marketRun_priceInv (events : List MarketEvent) (M : MarketEngine) (h : PriceInv M) :
    PriceInv (marketRun M events) := by
  induction events generalizing M with
  | nil => exact h
  | cons e es ih => exact ih (marketStep M e) (marketStep_priceInv M e h)

theorem pushPriceHistory_full (h : List ℚ) (q : ℚ) (hlen : h.length = historyLength) :
    pushPriceHistory h q = h.tail ++ [q] := by
  unfold pushPriceHistory
  dsimp only
  have hgt : (h ++ [q]).length > historyLength := by
    rw [List.length_append, hlen]
    simp
  rw [if_pos hgt]
  cases h with
  | nil => simp [historyLength] at hlen
  | cons a t => rfl

theorem pushPriceHistory_length (h : List ℚ) (q : ℚ) (hlen : h.length = historyLength) :
    (pushPriceHistory h q).length = historyLength := by
  rw [pushPriceHistory_full h q hlen]
  cases h with
  | nil => simp [historyLength] at hlen
  | cons a t =>
    simp only [List.tail_cons, List.length_append, List.length_cons, List.length_nil] at hlen ⊢
    omega

theorem simulateTrends_mem_history (trend : ℚ) (ms : List Market) (draws : ℕ → ℚ) (x : Market)
    (hx : x ∈ simulateTrends trend ms draws) : ∃ m ∈ ms, x.history = m.history := by
  induction ms generalizing draws with
  | nil => simp [simulateTrends] at hx
  | cons m rest ih =>
    unfold simulateTrends at hx
    split_ifs at hx
    · rcases List.mem_cons.mp hx with hx | hx
      · exact ⟨m, List.mem_cons_self m rest, by rw [hx]⟩
      · obtain ⟨m0, hm0, h1⟩ := ih _ hx
        exact ⟨m0, List.mem_cons_of_mem m hm0, h1⟩
    · rcases List.mem_cons.mp hx with hx | hx
      · exact ⟨m, List.mem_cons_self m rest, by rw [hx]⟩
      · obtain ⟨m0, hm0, h1⟩ := ih _ hx
        exact ⟨m0, List.mem_cons_of_mem m hm0, h1⟩

theorem resetAll_mem_history (ms : List Market) (draws : ℕ → ℚ) (x : Market)
    (hx : x ∈ resetAll ms draws) : ∃ m ∈ ms, x.history = m.history := by
  induction ms generalizing draws with
  | nil => simp [resetAll] at hx
  | cons m rest ih =>
    unfold resetAll at hx
    rcases List.mem_cons.mp hx with hx | hx
    · exact ⟨m, List.mem_cons_self m rest, by rw [hx]⟩
    · obtain ⟨m0, hm0, h1⟩ := ih _ hx
      exact ⟨m0, List.mem_cons_of_mem m hm0, h1⟩

theorem init_historyInv (M : MarketEngine) : HistoryInv M.init := by
  intro m hm
  simp only [MarketEngine.init, defaultMarkets, List.mem_cons, List.mem_singleton,
    List.not_mem_nil, or_false] at hm
  rcases hm with h | h | h | h | h | h | h | h <;> rw [h] <;>
    exact List.length_replicate _ _

theorem marketStep_historyInv (M : MarketEngine) (e : MarketEvent) (h : HistoryInv M) :
    HistoryInv (marketStep M e) := by
  cases e with
  | init => exact init_historyInv M
  | updatePrices draws =>
    intro x hx
    obtain ⟨m, hm, r, hr⟩ := updateAll_mem M.markets draws x hx
    rw [hr]
    exact pushPriceHistory_length m.history _ (h m hm)
  | setTrend symbol trend =>
    intro x hx
    simp only [marketStep, setTrend, List.mem_map] at hx
    obtain ⟨m, hm, hr⟩ := hx
    split_ifs at hr <;> rw [← hr] <;> exact h m hm
  | simulateEvent kind intensity draws =>
    intro x hx
    obtain ⟨m, hm, h1⟩ := simulateTrends_mem_history _ M.markets draws x hx
    rw [h1]
    exact h m hm
  | resetTrends draws =>
    intro x hx
    obtain ⟨m, hm, h1⟩ := resetAll_mem_history M.markets draws x hx
    rw [h1]
    exact h m hm

theorem marketRun_historyInv (events : List MarketEvent) (M : MarketEngine)
    (h : HistoryInv M) : HistoryInv (marketRun M events) := by
  induction events generalizing M with
  | nil => exact h
  | cons e es ih => exact ih (marketStep M e) (marketStep_historyInv M e h)

theorem zeo_after_tick :
    getPrice (updatePrices MarketEngine.initial (fun _ => 0.75)) referenceSymbol
      = JsPrice.num 150.153 := by
  simp [getPrice, MarketEngine.lookup, updatePrices, updateAll, updateMarket, nextPrice,
    MarketEngine.initial, MarketEngine.init, defaultMarkets, defaultMarket, referenceSymbol,
    volatilityScale]
  norm_num

theorem zeo_initial : getPrice MarketEngine.initial referenceSymbol = JsPrice.num 150 := by
  decide

theorem lookup_eq_none (M : MarketEngine) (symbol : String)
    (h : ∀ m ∈ M.markets, m.symbol ≠ symbol) : M.lookup symbol = none := by
  unfold MarketEngine.lookup
  rw [List.find?_eq_none]
  intro m hm
  simpa using h m hm

theorem lookup_mem (M : MarketEngine) (symbol : String) (m : Market)
    (h : M.lookup symbol = some m) : m ∈ M.markets :=
  List.mem_of_find?_eq_some h

theorem simulateTrends_length (trend : ℚ) (ms : List Market) (draws : ℕ → ℚ) :
    (simulateTrends trend ms draws).length = ms.length := by
  induction ms generalizing draws with
  | nil => rfl
  | cons m rest ih =>
    unfold simulateTrends
    split_ifs <;> simp [ih]

theorem simulateTrends_getElem? (trend : ℚ) (ms : List Market) (draws : ℕ → ℚ) (i : ℕ)
    (m : Market) (h : ms[i]? = some m) :
    ∃ k : ℕ,
      (draws k > 0.7 ∧ (simulateTrends trend ms draws)[i]? = some m) ∨
      (¬ draws k > 0.7 ∧ (simulateTrends trend ms draws)[i]?
        = some { m with trend := trend * (draws (k + 1) * 0.5 + 0.5) }) := by
  induction ms generalizing draws i with
  | nil => simp at h
  | cons a rest ih =>
    cases i with
    | zero =>
      simp only [List.getElem?_cons_zero, Option.some.injEq] at h
      subst h
      refine ⟨0, ?_⟩
      unfold simulateTrends
      by_cases hs : draws 0 > 0.7
      · left
        rw [if_pos hs]
        exact ⟨hs, by simp⟩
      · right
        rw [if_neg hs]
        exact ⟨hs, by simp⟩
    | succ j =>
      simp only [List.getElem?_cons_succ] at h
      unfold simulateTrends
      by_cases hs : draws 0 > 0.7
      · rw [if_pos hs]
        obtain ⟨k, hk⟩ := ih (fun n => draws (n + 1)) j h
        refine ⟨k + 1, ?_⟩
        simp only [List.getElem?_cons_succ]
        exact hk
      · rw [if_neg hs]
        obtain ⟨k, hk⟩ := ih (fun n => draws (n + 2)) j h
        refine ⟨k + 2, ?_⟩
        simp only [List.getElem?_cons_succ]
        have e : k + 1 + 2 = k + 2 + 1 := by omega
        rw [← e]
        exact hk

theorem step_payoutInv (s : GamesEngine) (e : GameEvent) (he : e.drawsInRange)
    (h : PayoutInv s) : PayoutInv (step s e) := by
  cases e with
  | placeCrashBet amount rand u =>
    simp only [step, placeCrashBet]
    split_ifs with h1 h2 h3
    · exact h
    · exact h
    · exact h
    · intro _
      push_neg at h1
      refine ⟨by norm_num, ?_, ?_⟩
      · have := drawCrashPoint_ge_one rand u he.2.2.1
        simp only
        norm_num
        exact this
      · simp only
        linarith [h1.2]
  | animateCrash =>
    show PayoutInv (animateCrash s)
    unfold animateCrash
    split_ifs with h1 h2
    · exact h
    · dsimp only
      have hplay : s.isPlaying = true := by
        cases hq : s.isPlaying
        · simp [hq] at h2
        · rfl
      obtain ⟨hm, _, hb⟩ := h hplay
      split_ifs with hc
      · intro hp
        simp [handleCrash] at hp
      · intro _
        exact ⟨growMultiplier_ge _ hm, le_of_lt (not_le.mp hc), hb⟩
    · exact h
  | cashOutCrash =>
    simp only [step, cashOutCrash]
    split_ifs
    · exact h
    · exact h
  | handleCrash =>
    intro hp
    simp [step, handleCrash] at hp
  | playHighLow choice bet =>
    simp only [step, playHighLow]
    split_ifs
    · exact h
    · exact h
    · split <;> exact h
  | resolveHighLow i =>
    simp only [step, resolveHighLow]
    split
    · exact h
    · split_ifs <;> exact h
  | pollHighLowPrice p => exact h

theorem run_payoutInv (events : List GameEvent) (s : GamesEngine)
    (hev : ∀ e ∈ events, e.drawsInRange) (h : PayoutInv s) : PayoutInv (run s events) := by
  induction events generalizing s with
  | nil => exact h
  | cons e es ih =>
    exact ih (step s e) (fun x hx => hev x (List.mem_cons_of_mem e hx))
      (step_payoutInv s e (hev e (List.mem_cons_self e es)) h)

theorem jsOr_getPrice_pos (M : MarketEngine) (symbol : String) (d : ℚ)
    (hM : PricesPositive M) (hd : 0 < d) : 0 < jsOr (getPrice M symbol) d := by
  unfold getPrice
  cases hl : M.lookup symbol with
  | none => simpa [jsOr] using hd
  | some m =>
    have hpos := hM m (lookup_mem M symbol m hl)
    simp [jsOr, ne_of_gt hpos, hpos]

theorem jsOr_idem (x : JsPrice) (d : ℚ) : jsOr x (jsOr x d) = jsOr x d := by
  cases x with
  | undefined => rfl
  | null => rfl
  | num p =>
    unfold jsOr
    by_cases hp : p = 0
    · simp [hp]
    · simp [hp]

theorem totalReturn_buy (M : MarketEngine) (pos : Position) (h : pos.type = "buy") :
    totalReturn M pos = jsOr (getPrice M pos.symbol) pos.entry * pos.qty := by
  unfold totalReturn
  simp only [h, if_true]
  ring

theorem totalReturn_sell (M : MarketEngine) (pos : Position) (h : pos.type ≠ "buy") :
    totalReturn M pos = (2 * pos.entry - jsOr (getPrice M pos.symbol) pos.entry) * pos.qty := by
  unfold totalReturn
  simp only [h, if_false]
  ring

theorem executeTrade_tradeInv (M : MarketEngine) (a : AppState) (type : String) (qty : ℤ)
    (hM : PricesPositive M) (h : TradeInv a) : TradeInv (executeTrade M a type qty) := by
  unfold executeTrade
  dsimp only
  split_ifs with h1 h2
  · exact h
  · exact h
  · obtain ⟨hb, hp⟩ := h
    push_neg at h1 h2
    refine ⟨?_, ?_⟩
    · show 0 ≤ a.mainBalance - (qty : ℚ) * jsOr (getPrice M "ZEO") 150
      linarith
    · intro pos hmem
      simp only [List.mem_append, List.mem_singleton] at hmem
      rcases hmem with hmem | hmem
      · exact hp pos hmem
      · rw [hmem]
        exact ⟨h1, jsOr_getPrice_pos M "ZEO" 150 hM (by norm_num)⟩

theorem closePosition_tradeInv (M : MarketEngine) (a : AppState) (index : ℕ)
    (hc : (TradeEvent.closePosition M index).covered a) (h : TradeInv a) :
    TradeInv (closePosition M a index) := by
  unfold closePosition
  obtain ⟨hb, hp⟩ := h
  obtain ⟨hM, hsell⟩ := hc
  split
  · exact ⟨hb, hp⟩
  · rename_i pos hget
    obtain ⟨hq, he⟩ := hp pos (List.getElem?_mem hget)
    have hqq : (0 : ℚ) < (pos.qty : ℚ) := by exact_mod_cast hq
    have hret : 0 ≤ totalReturn M pos := by
      by_cases ht : pos.type = "buy"
      · rw [totalReturn_buy M pos ht]
        exact le_of_lt (mul_pos (jsOr_getPrice_pos M pos.symbol pos.entry hM he) hqq)
      · rw [totalReturn_sell M pos ht]
        have := hsell pos hget ht
        exact mul_nonneg (by linarith) (le_of_lt hqq)
    refine ⟨?_, fun q hqmem => hp q (List.mem_of_mem_eraseIdx hqmem)⟩
    show 0 ≤ a.mainBalance + totalReturn M pos
    linarith

theorem tradeRun_tradeInv (events : List TradeEvent) (a : AppState)
    (hc : Covered a events) (h : TradeInv a) : TradeInv (tradeRun a events) := by
  induction events generalizing a with
  | nil => exact h
  | cons e es ih =>
    obtain ⟨h1, h2⟩ := hc
    apply ih (tradeStep a e) h2
    cases e with
    | executeTrade M type qty => exact executeTrade_tradeInv M a type qty h1 h
    | closePosition M index => exact closePosition_tradeInv M a index h1 h

theorem zeo_surge : getPrice surgeMarket "ZEO" = JsPrice.num 450 := by
  simp [surgeMarket, getPrice, MarketEngine.lookup, updatePrices, setTrend, updateAll,
    updateMarket, nextPrice, MarketEngine.initial, MarketEngine.init, defaultMarkets,
    defaultMarket, volatilityScale]
  norm_num

theorem executeTrade_accept (M : MarketEngine) (a : AppState) (type : String) (qty : ℤ)
    (hq : 0 < qty) (hbal : (qty : ℚ) * jsOr (getPrice M "ZEO") 150 ≤ a.mainBalance) :
    executeTrade M a type qty =
      { a with
        walletMain := some (a.mainBalance - (qty : ℚ) * jsOr (getPrice M "ZEO") 150)
        games := { a.games with
          balance := a.mainBalance - (qty : ℚ) * jsOr (getPrice M "ZEO") 150 }
        portfolio := a.portfolio ++
          [{ symbol := "ZEO", entry := jsOr (getPrice M "ZEO") 150, qty := qty, type := type }] } := by
  unfold executeTrade
  dsimp only
  rw [if_neg (not_le.mpr hq), if_neg (not_lt.mpr hbal)]

theorem reads_of_absent_symbol (M : MarketEngine) (symbol : String)
    (hun : ∀ m ∈ M.markets, m.symbol ≠ symbol) (hout : symbol ∉ objectPrototypeKeys) :
    getPrice M symbol = JsPrice.null ∧ getMarket M symbol = MarketRead.null ∧
      getPriceHistory M symbol = HistoryRead.array [] := by
  have hl := lookup_eq_none M symbol hun
  simp [getPrice, getMarket, getPriceHistory, hl, hout]

theorem reads_of_registered_symbol (M : MarketEngine) (events : List MarketEvent)
    (symbol : String) (m : Market) (hm : (marketRun M.init events).lookup symbol = some m) :
    getPrice (marketRun M.init events) symbol = JsPrice.num m.price ∧ m.price ≠ 0 ∧
      getMarket (marketRun M.init events) symbol = MarketRead.market m ∧
      getPriceHistory (marketRun M.init events) symbol = HistoryRead.array m.history := by
  have hinv := marketRun_priceInv events M.init (init_priceInv M) m (lookup_mem _ _ _ hm)
  have hne : m.price ≠ 0 := by
    intro h0
    have := hinv.1
    rw [h0] at this
    norm_num at this
  simp [getPrice, getMarket, getPriceHistory, hm, hne]

/-! ## Claims -/

/-- C1: a crash bet below the minimum of 10, or above the current balance, is rejected and
leaves the whole engine state (balance, isPlaying, hasCashedOut, betAmount,
currentMultiplier, crashPoint, crash history) as it was. -/
theorem C1_placeCrashBet_rejects_without_mutation (s : GamesEngine) (amount rand u : ℚ)
    (h : amount < 10 ∨ amount > s.balance) :
    placeCrashBet s amount rand u = s := by
  rcases h with h | h
  · exact placeCrashBet_reject_low s amount rand u h
  · exact placeCrashBet_reject_balance s amount rand u h

/-- C1 at a concrete input: a bet of 5 on a balance of 1000. -/
theorem C1_witness :
    ((5 : ℚ) < 10 ∨ (5 : ℚ) > idleExample.balance) ∧
      placeCrashBet idleExample 5 (1 / 2) (1 / 2) = idleExample :=
  ⟨Or.inl (by norm_num),
    C1_placeCrashBet_rejects_without_mutation idleExample 5 (1 / 2) (1 / 2)
      (Or.inl (by norm_num))⟩

/-- C2: in a round that is playing and not cashed out, the first cashOutCrash adds exactly
betAmount times currentMultiplier to the balance, sets hasCashedOut and changes nothing
else; a second cashOutCrash leaves the whole state as the first one left it. -/
theorem C2_cashOutCrash_pays_once (s : GamesEngine) (hp : s.isPlaying = true)
    (hc : s.hasCashedOut = false) :
    (cashOutCrash s).balance = s.balance + s.betAmount * s.currentMultiplier ∧
      cashOutCrash s = { s with
        hasCashedOut := true
        balance := s.balance + s.betAmount * s.currentMultiplier } ∧
      cashOutCrash (cashOutCrash s) = cashOutCrash s := by
  have h1 := cashOutCrash_pay s hp hc
  refine ⟨by rw [h1], h1, ?_⟩
  apply cashOutCrash_noop
  right
  rw [h1]

/-- C2 at a concrete input: bet 100 at multiplier 1.47 on a balance of 900 pays 147. -/
theorem C2_witness :
    (cashOutCrash runningExample).balance = 1047 ∧
      cashOutCrash (cashOutCrash runningExample) = cashOutCrash runningExample := by
  have h := C2_cashOutCrash_pays_once runningExample rfl rfl
  refine ⟨?_, h.2.2⟩
  rw [h.1]
  norm_num [runningExample, idleExample, GamesEngine.initial]

/-- C3: while a crash round is playing, placeCrashBet with any amount and any draws is
rejected and leaves the whole engine state, the balance and the round included, as it
was. -/
theorem C3_placeCrashBet_single_flight (s : GamesEngine) (amount rand u : ℚ)
    (hp : s.isPlaying = true) :
    placeCrashBet s amount rand u = s :=
  placeCrashBet_reject_playing s amount rand u hp

/-- C3 at a concrete input: a second bet of 50 during a running round. -/
theorem C3_witness :
    runningExample.isPlaying = true ∧
      placeCrashBet runningExample 50 (1 / 2) (1 / 2) = runningExample :=
  ⟨rfl, C3_placeCrashBet_single_flight runningExample 50 (1 / 2) (1 / 2) rfl⟩

/-- C4: from any engine state with a balance of at least zero in which no crash round is
playing and no high/low call is pending (the state the engine starts in), every sequence
of placeCrashBet, animation frames, cashOutCrash, handleCrash, playHighLow placements,
high/low resolutions and price polls, with any amounts, draws and prices, ends with a
balance of at least zero. -/
theorem C4_balance_never_negative (s : GamesEngine) (events : List GameEvent)
    (hbal : 0 ≤ s.balance) (hidle : s.isPlaying = false) (hpend : s.pendingHighLow = []) :
    0 ≤ (run s events).balance := by
  have hinv : BalanceInv s := by
    refine ⟨hbal, ?_, ?_⟩
    · intro hp
      rw [hidle] at hp
      cases hp
    · intro r hr
      rw [hpend] at hr
      cases hr
  exact (run_inv events s hinv).1

/-- C4 at a concrete input: bet the whole balance of 1000, run one frame, cash out, try to
bet 5000. -/
theorem C4_witness :
    0 ≤ (run idleExample
      [GameEvent.placeCrashBet 1000 (1 / 2) (1 / 2), GameEvent.animateCrash,
        GameEvent.cashOutCrash, GameEvent.placeCrashBet 5000 0 0]).balance :=
  C4_balance_never_negative idleExample _ (by norm_num [idleExample, GamesEngine.initial])
    rfl rfl

/-- C5 on the code: after a cash-out the round stays playing. Animation frames leave the
state as the cash-out left it, and every later placeCrashBet, whatever the amount, is
rejected: the engine does not return to Idle. -/
theorem C5_no_new_bet_after_cash_out (s : GamesEngine) (n : ℕ) (amount rand u : ℚ)
    (hp : s.isPlaying = true) (hc : s.hasCashedOut = false) :
    animateCrash^[n] (cashOutCrash s) = cashOutCrash s ∧
      (animateCrash^[n] (cashOutCrash s)).isPlaying = true ∧
      placeCrashBet (animateCrash^[n] (cashOutCrash s)) amount rand u = cashOutCrash s := by
  have h1 := cashOutCrash_pay s hp hc
  have hfix : animateCrash (cashOutCrash s) = cashOutCrash s := by
    apply animateCrash_not_running
    right
    rw [h1]
  have hiter : animateCrash^[n] (cashOutCrash s) = cashOutCrash s :=
    Function.iterate_fixed hfix n
  have hplay : (cashOutCrash s).isPlaying = true := by
    rw [h1]
    exact hp
  rw [hiter]
  exact ⟨rfl, hplay, placeCrashBet_reject_playing _ amount rand u hplay⟩

/-- C5 at a concrete input: cash out of the running round, let three frames pass, then bet
10 on a balance of 1047. -/
theorem C5_witness :
    placeCrashBet (animateCrash^[3] (cashOutCrash runningExample)) 10 (1 / 2) (1 / 2) =
      cashOutCrash runningExample :=
  (C5_no_new_bet_after_cash_out runningExample 3 10 (1 / 2) (1 / 2) rfl rfl).2.2

/-- C6: a frame of a round that is playing and not cashed out, in a live crash view, sets
the multiplier to m + 0.01 + 0.005 m, and the round ends (through handleCrash) if and only
if that new multiplier has reached the crash point; a frame whose new multiplier is below
the crash point changes nothing but the multiplier. -/
theorem C6_crash_at_first_frame_reaching_crash_point (s : GamesEngine) (h : Running s) :
    (animateCrash s).currentMultiplier
        = s.currentMultiplier + 0.01 + 0.005 * s.currentMultiplier ∧
      ((animateCrash s).isPlaying = false ↔
        s.currentMultiplier + 0.01 + 0.005 * s.currentMultiplier ≥ s.crashPoint) ∧
      (s.currentMultiplier + 0.01 + 0.005 * s.currentMultiplier ≥ s.crashPoint →
        animateCrash s = handleCrash
          { s with currentMultiplier := s.currentMultiplier + 0.01 + 0.005 * s.currentMultiplier }) ∧
      (s.currentMultiplier + 0.01 + 0.005 * s.currentMultiplier < s.crashPoint →
        animateCrash s =
          { s with currentMultiplier := s.currentMultiplier + 0.01 + 0.005 * s.currentMultiplier }) := by
  have hg : growMultiplier s.currentMultiplier
      = s.currentMultiplier + 0.01 + 0.005 * s.currentMultiplier := by
    unfold growMultiplier
    ring
  have hrun := animateCrash_running s h
  rw [hg] at hrun
  have hplay : s.isPlaying = true := h.2.2.1
  rw [hrun]
  split_ifs with hc
  · refine ⟨rfl, ⟨fun _ => hc, fun _ => rfl⟩, fun _ => rfl, fun hlt => absurd hc (not_le.mpr hlt)⟩
  · refine ⟨rfl, ⟨fun hf => ?_, fun hge => absurd hge hc⟩, fun hge => absurd hge hc, fun _ => rfl⟩
    dsimp only at hf
    rw [hplay] at hf
    cases hf

/-- C6 at a concrete input: with crash point 1.5 the frame from 1.47 reaches 1.48735 and
the round goes on. -/
theorem C6_witness :
    Running runningExample ∧
      (animateCrash runningExample).currentMultiplier
        = runningExample.currentMultiplier + 0.01 + 0.005 * runningExample.currentMultiplier :=
  ⟨⟨rfl, rfl, rfl, rfl⟩,
    (C6_crash_at_first_frame_reaching_crash_point runningExample ⟨rfl, rfl, rfl, rfl⟩).1⟩

/-- C7: an accepted crash bet with band selector p and second draw u in [0,1) (whatever
the value of p, so in particular for p in [0,1)) sets crashPoint to 1 + 1.5u in [1, 2.5) if p < 0.3, to 1.5 + 2u in [1.5, 3.5) if 0.3 ≤ p < 0.6,
to 2 + 3u in [2, 5) if 0.6 ≤ p < 0.85, to 3 + 7u in [3, 10) if 0.85 ≤ p < 0.95, and to
5 + 20u in [5, 25) if p ≥ 0.95. -/
theorem C7_crash_point_bands (s : GamesEngine) (amount p u : ℚ)
    (hidle : s.isPlaying = false) (hmin : 10 ≤ amount) (hbal : amount ≤ s.balance)
    (hu0 : 0 ≤ u) (hu1 : u < 1) :
    (p < 0.3 → (placeCrashBet s amount p u).crashPoint = 1 + 1.5 * u ∧
        1 ≤ (placeCrashBet s amount p u).crashPoint ∧
        (placeCrashBet s amount p u).crashPoint < 2.5) ∧
      (0.3 ≤ p → p < 0.6 → (placeCrashBet s amount p u).crashPoint = 1.5 + 2 * u ∧
        1.5 ≤ (placeCrashBet s amount p u).crashPoint ∧
        (placeCrashBet s amount p u).crashPoint < 3.5) ∧
      (0.6 ≤ p → p < 0.85 → (placeCrashBet s amount p u).crashPoint = 2 + 3 * u ∧
        2 ≤ (placeCrashBet s amount p u).crashPoint ∧
        (placeCrashBet s amount p u).crashPoint < 5) ∧
      (0.85 ≤ p → p < 0.95 → (placeCrashBet s amount p u).crashPoint = 3 + 7 * u ∧
        3 ≤ (placeCrashBet s amount p u).crashPoint ∧
        (placeCrashBet s amount p u).crashPoint < 10) ∧
      (0.95 ≤ p → (placeCrashBet s amount p u).crashPoint = 5 + 20 * u ∧
        5 ≤ (placeCrashBet s amount p u).crashPoint ∧
        (placeCrashBet s amount p u).crashPoint < 25) := by
  have hcp : (placeCrashBet s amount p u).crashPoint = drawCrashPoint p u := by
    rw [placeCrashBet_accept s amount p u hidle hmin hbal]
  rw [hcp]
  unfold drawCrashPoint
  refine ⟨?_, ?_, ?_, ?_, ?_⟩
  · intro h1
    rw [if_pos h1]
    refine ⟨by ring, ?_, ?_⟩ <;> norm_num <;> linarith
  · intro h1 h2
    rw [if_neg (not_lt.mpr h1), if_pos h2]
    refine ⟨by ring, ?_, ?_⟩ <;> norm_num <;> linarith
  · intro h1 h2
    have h3 : ¬ p < 0.3 := by norm_num at h1 ⊢; linarith
    rw [if_neg h3, if_neg (not_lt.mpr h1), if_pos h2]
    refine ⟨by ring, ?_, ?_⟩ <;> norm_num <;> linarith
  · intro h1 h2
    have h3 : ¬ p < 0.3 := by norm_num at h1 ⊢; linarith
    have h4 : ¬ p < 0.6 := by norm_num at h1 ⊢; linarith
    rw [if_neg h3, if_neg h4, if_neg (not_lt.mpr h1), if_pos h2]
    refine ⟨by ring, ?_, ?_⟩ <;> norm_num <;> linarith
  · intro h1
    have h3 : ¬ p < 0.3 := by norm_num at h1 ⊢; linarith
    have h4 : ¬ p < 0.6 := by norm_num at h1 ⊢; linarith
    have h5 : ¬ p < 0.85 := by norm_num at h1 ⊢; linarith
    rw [if_neg h3, if_neg h4, if_neg h5, if_neg (not_lt.mpr h1)]
    refine ⟨by ring, ?_, ?_⟩ <;> norm_num <;> linarith

/-- C7 at a concrete input: selector 0.9 and second draw 0.5 give the fourth band,
crash point 6.5. -/
theorem C7_witness :
    (placeCrashBet idleExample 100 0.9 0.5).crashPoint = 3 + 7 * 0.5 ∧
      3 ≤ (placeCrashBet idleExample 100 0.9 0.5).crashPoint ∧
      (placeCrashBet idleExample 100 0.9 0.5).crashPoint < 10 :=
  (C7_crash_point_bands idleExample 100 0.9 0.5 rfl (by norm_num)
    (by norm_num [idleExample, GamesEngine.initial]) (by norm_num) (by norm_num)).2.2.2.1
    (by norm_num) (by norm_num)

/-- C8: in a state where no round is playing, placeCrashBet with 10 ≤ amount ≤ balance
lowers the balance by exactly the amount, sets betAmount to the amount, currentMultiplier
to 1.00, isPlaying to true and hasCashedOut to false, and leaves the crash history (and
every field besides the crash point) unchanged. -/
theorem C8_accepted_bet_starts_fresh_round (s : GamesEngine) (amount rand u : ℚ)
    (hidle : s.isPlaying = false) (hmin : 10 ≤ amount) (hbal : amount ≤ s.balance) :
    (placeCrashBet s amount rand u).balance = s.balance - amount ∧
      (placeCrashBet s amount rand u).betAmount = amount ∧
      (placeCrashBet s amount rand u).currentMultiplier = 1.00 ∧
      (placeCrashBet s amount rand u).isPlaying = true ∧
      (placeCrashBet s amount rand u).hasCashedOut = false ∧
      (placeCrashBet s amount rand u).crashHistory = s.crashHistory ∧
      (placeCrashBet s amount rand u).activeGame = s.activeGame ∧
      (placeCrashBet s amount rand u).crashCtx = s.crashCtx ∧
      (placeCrashBet s amount rand u).highLowPrice = s.highLowPrice ∧
      (placeCrashBet s amount rand u).pendingHighLow = s.pendingHighLow := by
  rw [placeCrashBet_accept s amount rand u hidle hmin hbal]
  exact ⟨rfl, rfl, rfl, rfl, rfl, rfl, rfl, rfl, rfl, rfl⟩

/-- C8 at a concrete input: a bet of 100 on a balance of 1000 leaves 900. -/
theorem C8_witness :
    (placeCrashBet idleExample 100 (1 / 2) (1 / 2)).balance = 900 ∧
      (placeCrashBet idleExample 100 (1 / 2) (1 / 2)).isPlaying = true := by
  have h := C8_accepted_bet_starts_fresh_round idleExample 100 (1 / 2) (1 / 2) rfl
    (by norm_num) (by norm_num [idleExample, GamesEngine.initial])
  refine ⟨?_, h.2.2.2.1⟩
  rw [h.1]
  norm_num [idleExample, GamesEngine.initial]

/-- C9: the multiplier sequence m0 = 1.00, m(n+1) = m(n) + 0.01 + 0.005 m(n) of successive
frames is strictly increasing, and its increments are strictly increasing. -/
theorem C9_multiplier_strictly_superlinear (n : ℕ) :
    multiplierAfter 0 = 1.00 ∧
      multiplierAfter (n + 1) = multiplierAfter n + 0.01 + 0.005 * multiplierAfter n ∧
      multiplierAfter (n + 1) > multiplierAfter n ∧
      multiplierAfter (n + 2) - multiplierAfter (n + 1)
        > multiplierAfter (n + 1) - multiplierAfter n := by
  have h0 := multiplierAfter_ge_one n
  have h1 := multiplierAfter_succ n
  have h2 := multiplierAfter_succ (n + 1)
  norm_num at h1 h2
  refine ⟨rfl, ?_, ?_, ?_⟩
  · rw [h1]; ring
  · linarith
  · linarith

/-- C10: a round that is playing and not cashed out in a live crash view, with multiplier
1.00 and a crash point below 25, ends after at least one and at most 1600 frames: it is
still playing before frame n, and frame n brings the multiplier to the crash point or
above and runs handleCrash. -/
theorem C10_crash_round_ends_within_1600_frames (s : GamesEngine) (hrun : Running s)
    (hm : s.currentMultiplier = 1.00) (hhi : s.crashPoint < 25) :
    ∃ n : ℕ, 1 ≤ n ∧ n ≤ 1600 ∧
      (∀ k < n, (animateCrash^[k] s).isPlaying = true) ∧
      s.crashPoint ≤ (animateCrash^[n] s).currentMultiplier ∧
      (animateCrash^[n] s).isPlaying = false ∧
      animateCrash^[n] s = handleCrash { s with currentMultiplier := multiplierAfter n } := by
  have hend : (animateCrash^[1600] s).isPlaying = false := by
    cases hq : (animateCrash^[1600] s).isPlaying
    · rfl
    · exfalso
      have h1 := (animateCrash_iterate_playing 1600 s hrun hq).2 (by norm_num)
      have h2 := growMultiplier_iterate_lower 1600 s.currentMultiplier (by rw [hm]; norm_num)
      generalize growMultiplier^[1600] s.currentMultiplier = y at h1 h2
      rw [hm] at h2
      norm_num at h2
      linarith
  have hex : ∃ n, (animateCrash^[n] s).isPlaying = false := ⟨1600, hend⟩
  classical
  have hfind := Nat.find_spec hex
  have hmin : ∀ k < Nat.find hex, (animateCrash^[k] s).isPlaying = true := by
    intro k hk
    have := Nat.find_min hex hk
    simpa using this
  have hpos : 1 ≤ Nat.find hex := by
    rcases Nat.eq_zero_or_pos (Nat.find hex) with h0 | h0
    · rw [h0] at hfind
      have hp : s.isPlaying = true := hrun.2.2.1
      simp [hp] at hfind
    · exact h0
  obtain ⟨j, hj⟩ : ∃ j, Nat.find hex = j + 1 := ⟨Nat.find hex - 1, by omega⟩
  have hprev := (animateCrash_iterate_playing j s hrun (hmin j (by omega))).1
  have hlast : animateCrash^[j + 1] s
      = handleCrash { s with currentMultiplier := multiplierAfter (j + 1) } ∧
      s.crashPoint ≤ multiplierAfter (j + 1) := by
    have hrunj : Running (animateCrash^[j] s) := by
      rw [hprev]
      exact hrun
    have hstep := animateCrash_running _ hrunj
    have hfj : (animateCrash^[j + 1] s).isPlaying = false := by
      rw [← hj]
      exact hfind
    rw [Function.iterate_succ_apply'] at hfj ⊢
    rw [hstep] at hfj ⊢
    rw [hprev] at hfj ⊢
    have hma : multiplierAfter (j + 1) = growMultiplier (growMultiplier^[j] s.currentMultiplier) := by
      unfold multiplierAfter
      rw [Function.iterate_succ_apply', hm]
    dsimp only at hfj ⊢
    rw [hma]
    split_ifs at hfj ⊢ with hc
    · exact ⟨rfl, hc⟩
    · dsimp only at hfj
      rw [hrun.2.2.1] at hfj
      cases hfj
  refine ⟨Nat.find hex, hpos, Nat.find_min' hex hend, hmin, ?_, hfind, ?_⟩
  · rw [hj, hlast.1]
    exact hlast.2
  · rw [hj]
    exact hlast.1

/-- C10 at a concrete input: a fresh round with crash point 1.5 ends within 1600 frames. -/
theorem C10_witness :
    ∃ n : ℕ, 1 ≤ n ∧ n ≤ 1600 ∧ (animateCrash^[n] freshExample).isPlaying = false := by
  obtain ⟨n, h1, h2, _, _, h3, _⟩ :=
    C10_crash_round_ends_within_1600_frames freshExample ⟨rfl, rfl, rfl, rfl⟩ rfl
      (by norm_num [freshExample, runningExample, idleExample, GamesEngine.initial])
  exact ⟨n, h1, h2, h3⟩

/-- C11: handleCrash leaves the balance unchanged, a cashOutCrash after it (also after any
number of animation frames) is a no-op, and so is every cashOutCrash in a state where no
round is playing, such as the engine before any bet: a crashed bet is never paid. -/
theorem C11_crashed_bet_is_forfeit (s : GamesEngine) (n : ℕ) (b : ℚ) (history : List ℚ) :
    (handleCrash s).balance = s.balance ∧
      cashOutCrash (handleCrash s) = handleCrash s ∧
      cashOutCrash (animateCrash^[n] (handleCrash s)) = handleCrash s ∧
      (s.isPlaying = false → cashOutCrash s = s) ∧
      cashOutCrash (GamesEngine.initial b history) = GamesEngine.initial b history := by
  have hfix : animateCrash (handleCrash s) = handleCrash s :=
    animateCrash_not_running _ (Or.inl rfl)
  refine ⟨rfl, cashOutCrash_noop _ (Or.inl rfl), ?_, fun h => cashOutCrash_noop s (Or.inl h),
    cashOutCrash_noop _ (Or.inl rfl)⟩
  rw [Function.iterate_fixed hfix n]
  exact cashOutCrash_noop _ (Or.inl rfl)

/-- C11 at a concrete input: the running round crashes, two frames pass, then a cash-out is
tried; and a cash-out on the idle engine. -/
theorem C11_witness :
    (handleCrash runningExample).balance = runningExample.balance ∧
      cashOutCrash (animateCrash^[2] (handleCrash runningExample)) = handleCrash runningExample ∧
      cashOutCrash idleExample = idleExample :=
  ⟨(C11_crashed_bet_is_forfeit runningExample 2 0 []).1,
    (C11_crashed_bet_is_forfeit runningExample 2 0 []).2.2.1,
    (C11_crashed_bet_is_forfeit idleExample 2 0 []).2.2.2.1 rfl⟩

/-- C12: for a crash history of at most 50 entries, handleCrash yields the first 50 elements
of the crash point followed by the old history: the crash point is at index 0, the older
entries keep their order, only the last (oldest) entry is dropped when the old history was
full, and the length stays at most 50. -/
theorem C12_crash_history_bounded (s : GamesEngine) (hlen : s.crashHistory.length ≤ 50) :
    (handleCrash s).crashHistory = (s.crashPoint :: s.crashHistory).take 50 ∧
      (handleCrash s).crashHistory.length ≤ 50 ∧
      (handleCrash s).crashHistory[0]? = some s.crashPoint ∧
      (s.crashHistory.length < 50 →
        (handleCrash s).crashHistory = s.crashPoint :: s.crashHistory) ∧
      (s.crashHistory.length = 50 →
        (handleCrash s).crashHistory = s.crashPoint :: s.crashHistory.dropLast) := by
  have heq : (handleCrash s).crashHistory = (s.crashPoint :: s.crashHistory).take 50 :=
    pushCrashHistory_eq_take s.crashPoint s.crashHistory hlen
  refine ⟨heq, ?_, ?_, ?_, ?_⟩
  · rw [heq]
    exact List.length_take_le 50 _
  · rw [heq]
    simp
  · intro hlt
    rw [heq]
    exact List.take_of_length_le (by simp only [List.length_cons]; omega)
  · intro h50
    rw [heq, List.dropLast_eq_take, h50]
    rfl

/-- C12 at a concrete input: a full history of fifty entries, crash point 1.5. -/
theorem C12_witness :
    ({ runningExample with crashHistory := List.replicate 50 2 } : GamesEngine).crashHistory.length
        ≤ 50 ∧
      (handleCrash { runningExample with crashHistory := List.replicate 50 2 }).crashHistory.length
        ≤ 50 :=
  ⟨by simp,
    (C12_crash_history_bounded { runningExample with crashHistory := List.replicate 50 2 }
      (by simp)).2.1⟩

/-- C13: after an accepted placeCrashBet whose second draw is in [0,1), every state reached
through any further operations (frames, cash-outs, crashes, later bets with draws in [0,1),
high/low calls) has crashPoint ≥ 1 and currentMultiplier ≥ 1. -/
theorem C13_round_values_at_least_one (s : GamesEngine) (amount rand u : ℚ)
    (events : List GameEvent) (hidle : s.isPlaying = false) (hmin : 10 ≤ amount)
    (hbal : amount ≤ s.balance) (hu : 0 ≤ u) (hev : ∀ e ∈ events, e.drawsInRange) :
    1 ≤ (run (placeCrashBet s amount rand u) events).crashPoint ∧
      1 ≤ (run (placeCrashBet s amount rand u) events).currentMultiplier := by
  apply run_round_values events _ hev
  rw [placeCrashBet_accept s amount rand u hidle hmin hbal]
  exact ⟨drawCrashPoint_ge_one rand u hu, by norm_num⟩

/-- C13 at a concrete input: bet 100, then a frame, a cash-out and a crash. -/
theorem C13_witness :
    1 ≤ (run (placeCrashBet idleExample 100 0.9 0.5)
        [GameEvent.animateCrash, GameEvent.cashOutCrash, GameEvent.handleCrash]).crashPoint ∧
      1 ≤ (run (placeCrashBet idleExample 100 0.9 0.5)
        [GameEvent.animateCrash, GameEvent.cashOutCrash, GameEvent.handleCrash]).currentMultiplier :=
  C13_round_values_at_least_one idleExample 100 0.9 0.5 _ rfl (by norm_num)
    (by norm_num [idleExample, GamesEngine.initial]) (by norm_num)
    (by
      intro e he
      simp only [List.mem_cons, List.mem_singleton, List.not_mem_nil, or_false] at he
      rcases he with rfl | rfl | rfl <;> exact True.intro)

/-- C14: when the pending high/low call of bet b, choice c and start price p0 resumes with
the end price e, the balance grows by exactly b times 1.85 if (c is high and e > p0) or (c
is low and e < p0), and by nothing otherwise; with e = p0 nothing is credited for either
choice. -/
theorem C14_high_low_resolution_rule (s : GamesEngine) (i : ℕ) (r : HighLowRound) (e : ℚ)
    (hget : s.pendingHighLow[i]? = some r) (hend : s.highLowPrice = JsPrice.num e) :
    (resolveHighLow s i).balance
        = s.balance + (if (r.choice = Choice.high ∧ e > r.startPrice) ∨
            (r.choice = Choice.low ∧ e < r.startPrice) then r.bet * 1.85 else 0) ∧
      (e = r.startPrice → (resolveHighLow s i).balance = s.balance) := by
  have hb := resolveHighLow_balance s i r hget
  rw [hend] at hb
  have hiff := isWin_num r.choice r.startPrice e
  constructor
  · rw [hb]
    by_cases hw : isWin r.choice r.startPrice (JsPrice.num e) = true
    · rw [if_pos hw, if_pos (hiff.mp hw)]
    · rw [if_neg hw, if_neg (fun h => hw (hiff.mpr h))]
  · intro heq
    have hw : ¬ isWin r.choice r.startPrice (JsPrice.num e) = true := by
      rw [hiff, heq]
      rintro (⟨_, h⟩ | ⟨_, h⟩) <;> exact lt_irrefl _ h
    rw [hb, if_neg hw, add_zero]

/-- C14 at a concrete input: 100 on high locked at 150, a tie at 150 credits nothing. -/
theorem C14_witness :
    (resolveHighLow pendingExample 0).balance
        = pendingExample.balance +
          (if (Choice.high = Choice.high ∧ (150 : ℚ) > 150) ∨
            (Choice.high = Choice.low ∧ (150 : ℚ) < 150) then (100 : ℚ) * 1.85 else 0) ∧
      (resolveHighLow pendingExample 0).balance = pendingExample.balance :=
  ⟨(C14_high_low_resolution_rule pendingExample 0
      { choice := Choice.high, bet := 100, startPrice := 150 } 150 rfl rfl).1,
    (C14_high_low_resolution_rule pendingExample 0
      { choice := Choice.high, bet := 100, startPrice := 150 } 150 rfl rfl).2 rfl⟩

/-- C15: playHighLow lowers the balance by exactly the amount when amount ≥ 10 and
balance ≥ amount, and leaves the whole state, the balance and the pending calls included,
unchanged when amount < 10 or balance < amount. -/
theorem C15_high_low_bet_admission (s : GamesEngine) (choice : Choice) (bet : ℚ) :
    (10 ≤ bet → bet ≤ s.balance → (playHighLow s choice bet).balance = s.balance - bet) ∧
      (bet < 10 ∨ s.balance < bet → playHighLow s choice bet = s) :=
  ⟨playHighLow_accept_balance s choice bet, playHighLow_reject s choice bet⟩

/-- C15 at a concrete input: a bet of 100 on a balance of 900 is debited, a bet of 5 is
rejected. -/
theorem C15_witness :
    (playHighLow pendingExample Choice.low 100).balance = pendingExample.balance - 100 ∧
      playHighLow pendingExample Choice.low 5 = pendingExample :=
  ⟨(C15_high_low_bet_admission pendingExample Choice.low 100).1 (by norm_num)
      (by norm_num [pendingExample, GamesEngine.initial]),
    (C15_high_low_bet_admission pendingExample Choice.low 5).2 (Or.inl (by norm_num))⟩

/-- C16 fails as stated: the high/low view is started on the initial market (ZEO at 150),
the market then ticks (ZEO moves to 150.153), and a bet placed before the next poll locks
the start price 150, which is not the price getPrice returns at bet time. -/
theorem C16_counterexample :
    getPrice (updatePrices MarketEngine.initial (fun _ => 0.75)) referenceSymbol
        = JsPrice.num 150.153 ∧
      (playHighLow (startHighLowGame MarketEngine.initial (GamesEngine.initial 1000 []))
        Choice.high 100).pendingHighLow
        = [{ choice := Choice.high, bet := 100, startPrice := 150 }] ∧
      ¬ ∀ r ∈ (playHighLow (startHighLowGame MarketEngine.initial (GamesEngine.initial 1000 []))
          Choice.high 100).pendingHighLow,
        JsPrice.num r.startPrice
          = getPrice (updatePrices MarketEngine.initial (fun _ => 0.75)) referenceSymbol := by
  have hprice : getPrice (updatePrices MarketEngine.initial (fun _ => 0.75)) referenceSymbol
      = JsPrice.num 150.153 := by
    simp [getPrice, MarketEngine.lookup, updatePrices, updateAll, updateMarket, nextPrice,
      MarketEngine.initial, MarketEngine.init, defaultMarkets, defaultMarket, referenceSymbol,
      volatilityScale]
    norm_num
  have hpend : (playHighLow (startHighLowGame MarketEngine.initial (GamesEngine.initial 1000 []))
      Choice.high 100).pendingHighLow
      = [{ choice := Choice.high, bet := 100, startPrice := 150 }] := by decide
  refine ⟨hprice, hpend, ?_⟩
  intro hall
  have h := hall { choice := Choice.high, bet := 100, startPrice := 150 }
    (by rw [hpend]; exact List.mem_singleton.mpr rfl)
  rw [hprice] at h
  injection h with h
  norm_num at h

/-- C16 as amended: the price playHighLow works with is the cached highLowPrice. A poll
(startHighLowGame or its interval callback) stores what getPrice returns for ZEO at that
moment; a bet placed after the poll records that stored price as startPrice, and a
resolution after the poll decides the outcome with that stored price as endPrice, whatever
the market did since. -/
theorem C16_high_low_uses_cached_price (M : MarketEngine) (s : GamesEngine) (choice : Choice)
    (bet p : ℚ) (i : ℕ) (r : HighLowRound)
    (hprice : getPrice M referenceSymbol = JsPrice.num p)
    (hmin : 10 ≤ bet) (hbal : bet ≤ s.balance) (hget : s.pendingHighLow[i]? = some r) :
    (pollMarket M s).highLowPrice = JsPrice.num p ∧
      (startHighLowGame M s).highLowPrice = JsPrice.num p ∧
      (playHighLow (pollMarket M s) choice bet).pendingHighLow
        = s.pendingHighLow ++ [{ choice := choice, bet := bet, startPrice := p }] ∧
      (resolveHighLow (pollMarket M s) i).balance
        = s.balance + (if isWin r.choice r.startPrice (JsPrice.num p) then r.bet * 1.85 else 0) := by
  have hpoll : (pollMarket M s).highLowPrice = JsPrice.num p := hprice
  refine ⟨hpoll, hprice, ?_, ?_⟩
  · exact playHighLow_accept_pending (pollMarket M s) choice bet p hmin hbal hpoll
  · have hb := resolveHighLow_balance (pollMarket M s) i r hget
    rw [hpoll] at hb
    exact hb

/-- C16 as amended, at a concrete input: the poll on the initial market caches 150, and a
bet of 50 on low records 150. -/
theorem C16_witness :
    (pollMarket MarketEngine.initial pendingExample).highLowPrice = JsPrice.num 150 ∧
      (playHighLow (pollMarket MarketEngine.initial pendingExample) Choice.low 50).pendingHighLow
        = pendingExample.pendingHighLow
          ++ [{ choice := Choice.low, bet := 50, startPrice := 150 }] :=
  ⟨(C16_high_low_uses_cached_price MarketEngine.initial pendingExample Choice.low 50 150 0
      { choice := Choice.high, bet := 100, startPrice := 150 } (by decide) (by norm_num)
      (by norm_num [pendingExample, GamesEngine.initial]) rfl).1,
    (C16_high_low_uses_cached_price MarketEngine.initial pendingExample Choice.low 50 150 0
      { choice := Choice.high, bet := 100, startPrice := 150 } (by decide) (by norm_num)
      (by norm_num [pendingExample, GamesEngine.initial]) rfl).2.2.1⟩

/-- C17 fails as stated: with one high/low call pending, a second playHighLow of 50 is
accepted, the balance changes and two calls are pending. -/
theorem C17_counterexample :
    pendingExample.pendingHighLow.length = 1 ∧
      (playHighLow pendingExample Choice.low 50).balance ≠ pendingExample.balance ∧
      (playHighLow pendingExample Choice.low 50).pendingHighLow.length = 2 := by
  refine ⟨rfl, ?_, ?_⟩
  · rw [playHighLow_accept_balance pendingExample Choice.low 50 (by norm_num)
      (by norm_num [pendingExample, GamesEngine.initial])]
    norm_num
  · rw [playHighLow_accept_pending pendingExample Choice.low 50 150 (by norm_num)
      (by norm_num [pendingExample, GamesEngine.initial]) rfl]
    rfl

/-- C17 as amended: playHighLow has no single-flight rule. However many calls are pending,
a playHighLow with amount ≥ 10 and balance ≥ amount, made while the cached price is a
number, is accepted: the balance drops by the amount and one more call is pending after
the ones already there. -/
theorem C17_high_low_accepts_while_pending (s : GamesEngine) (choice : Choice) (bet p : ℚ)
    (hmin : 10 ≤ bet) (hbal : bet ≤ s.balance) (hcache : s.highLowPrice = JsPrice.num p) :
    (playHighLow s choice bet).balance = s.balance - bet ∧
      (playHighLow s choice bet).pendingHighLow
        = s.pendingHighLow ++ [{ choice := choice, bet := bet, startPrice := p }] ∧
      (playHighLow s choice bet).pendingHighLow.length = s.pendingHighLow.length + 1 := by
  have hpend := playHighLow_accept_pending s choice bet p hmin hbal hcache
  refine ⟨playHighLow_accept_balance s choice bet hmin hbal, hpend, ?_⟩
  rw [hpend]
  simp

/-- C17 as amended, at a concrete input: a second bet of 50 while one call is pending. -/
theorem C17_witness :
    (playHighLow pendingExample Choice.low 50).balance = pendingExample.balance - 50 ∧
      (playHighLow pendingExample Choice.low 50).pendingHighLow.length
        = pendingExample.pendingHighLow.length + 1 :=
  ⟨(C17_high_low_accepts_while_pending pendingExample Choice.low 50 150 (by norm_num)
      (by norm_num [pendingExample, GamesEngine.initial]) rfl).1,
    (C17_high_low_accepts_while_pending pendingExample Choice.low 50 150 (by norm_num)
      (by norm_num [pendingExample, GamesEngine.initial]) rfl).2.2⟩

/-- C18 on the code: stopAllGames leaves the pending high/low calls in place, and a call
that resumes afterwards with a winning cached price still adds its payout of bet times
1.85 to the balance. -/
theorem C18_pending_high_low_pays_after_stop (s : GamesEngine) (i : ℕ) (r : HighLowRound)
    (hget : s.pendingHighLow[i]? = some r)
    (hwin : isWin r.choice r.startPrice s.highLowPrice = true) :
    (stopAllGames s).pendingHighLow = s.pendingHighLow ∧
      (stopAllGames s).balance = s.balance ∧
      (resolveHighLow (stopAllGames s) i).balance = s.balance + r.bet * 1.85 := by
  refine ⟨rfl, rfl, ?_⟩
  have hb := resolveHighLow_balance (stopAllGames s) i r hget
  rw [hb]
  have hw : isWin r.choice r.startPrice (stopAllGames s).highLowPrice = true := hwin
  rw [if_pos hw]
  rfl

/-- C18 at a concrete input: 100 on high locked at 150, the poll caches 151, the view is
left, and the resumed call pays 185 on top of the balance of 900. -/
theorem C18_witness :
    (resolveHighLow (stopAllGames (pollHighLowPrice pendingExample (JsPrice.num 151))) 0).balance
      = (pollHighLowPrice pendingExample (JsPrice.num 151)).balance + (100 : ℚ) * 1.85 :=
  (C18_pending_high_low_pays_after_stop (pollHighLowPrice pendingExample (JsPrice.num 151)) 0
    { choice := Choice.high, bet := 100, startPrice := 150 } rfl (by decide)).2.2

/-- C19: for the market at any position of the registry, with price p (not zero), trend t,
volatility scale v and draw r, updatePrices sets previousPrice to p, price to
max(0.01, p (1 + d / 100)) with d = (2r - 1) v + t v, the change to (newPrice - p) / p times
100, and pushes newPrice at the end of that symbol's history (dropping from the front
only); the scales are 0.5, 0.2 and 0.05. -/
theorem C19_price_tick_reference (M : MarketEngine) (draws : ℕ → ℚ) (i : ℕ) (m : Market)
    (hget : M.markets[i]? = some m) (hp : m.price ≠ 0) :
    ∃ m1 : Market, (updatePrices M draws).markets[i]? = some m1 ∧
      m1.symbol = m.symbol ∧
      m1.previousPrice = m.price ∧
      m1.price = max 0.01 (m.price * (1 + ((2 * draws i - 1) * volatilityScale m.volatility
        + m.trend * volatilityScale m.volatility) / 100)) ∧
      m1.change = some ((m1.price - m.price) / m.price * 100) ∧
      m1.history = pushPriceHistory m.history m1.price ∧
      m1.history.getLast? = some m1.price ∧
      m1.history <:+ m.history ++ [m1.price] ∧
      volatilityScale Volatility.high = 0.5 ∧
      volatilityScale Volatility.medium = 0.2 ∧
      volatilityScale Volatility.low = 0.05 := by
  refine ⟨updateMarket m (draws i), ?_, rfl, rfl, ?_, ?_, rfl, ?_, ?_, rfl, rfl, rfl⟩
  · show (updateAll M.markets draws)[i]? = _
    rw [updateAll_getElem?, hget]
    rfl
  · show nextPrice m (draws i) = _
    unfold nextPrice
    dsimp only
    congr 3
    ring
  · show (if m.price = 0 then none else some _) = _
    rw [if_neg hp]
    rfl
  · exact pushPriceHistory_last _ _
  · exact pushPriceHistory_suffix _ _

/-- C19 at a concrete input: ZEO, fourth in the initial registry, with the draw 0.75. -/
theorem C19_witness :
    ∃ m1 : Market,
      (updatePrices MarketEngine.initial (fun _ => 0.75)).markets[3]? = some m1 ∧
      m1.previousPrice = 150 ∧
      m1.price = max 0.01 (150 * (1 + ((2 * 0.75 - 1) * volatilityScale Volatility.medium
        + 0.01 * volatilityScale Volatility.medium) / 100)) := by
  obtain ⟨m1, h1, _, h2, h3, _⟩ :=
    C19_price_tick_reference MarketEngine.initial (fun _ => 0.75) 3
      (defaultMarket "ZEO" 150 Volatility.medium 0.01) rfl (by norm_num [defaultMarket])
  exact ⟨m1, h1, h2, h3⟩

/-- C20: in every state reached from init by any sequence of init, updatePrices, setTrend,
simulateEvent and trend-reset calls, with any draws and trend values, every market has
price ≥ 0.01 and so price > 0, and previousPrice ≥ 0.01; the divisor of the change
computation of the next tick is therefore not zero and the change is a number. -/
theorem C20_prices_stay_positive (M : MarketEngine) (events : List MarketEvent) (m : Market)
    (hm : m ∈ (marketRun M.init events).markets) :
    0.01 ≤ m.price ∧ 0 < m.price ∧ 0.01 ≤ m.previousPrice ∧
      ∀ r : ℚ, (updateMarket m r).change
        = some (((updateMarket m r).price - m.price) / m.price * 100) := by
  have hinv := marketRun_priceInv events M.init (init_priceInv M) m hm
  have hpos : 0 < m.price := lt_of_lt_of_le (by norm_num) hinv.1
  refine ⟨hinv.1, hpos, hinv.2, ?_⟩
  intro r
  show (if m.price = 0 then none else some _) = _
  rw [if_neg (ne_of_gt hpos)]
  rfl

/-- C20 at a concrete input: ZEO after init and one tick with all draws 0. -/
theorem C20_witness :
    ∃ m ∈ (marketRun MarketEngine.initial.init
        [MarketEvent.updatePrices (fun _ => 0)]).markets,
      m.symbol = "ZEO" ∧ 0.01 ≤ m.price ∧ 0 < m.price := by
  have hget : (marketRun MarketEngine.initial.init
        [MarketEvent.updatePrices (fun _ => 0)]).markets[3]?
      = some (updateMarket (defaultMarket "ZEO" 150 Volatility.medium 0.01) 0) := by
    show (updateAll defaultMarkets (fun _ => 0))[3]? = _
    rw [updateAll_getElem?]
    rfl
  have hmem := List.getElem?_mem hget
  have h := C20_prices_stay_positive MarketEngine.initial _ _ hmem
  exact ⟨_, hmem, rfl, h.1, h.2.1⟩

/-- C21: in every state reached from init by ticks (and by the trend operations), each
symbol's history has at most historyLength = 60 entries (exactly 60); a tick on a full
history h with new price q yields h without its first element followed by q, and that is
what the tick does to every registered market. -/
theorem C21_history_ring_buffer (M : MarketEngine) (events : List MarketEvent) (m : Market)
    (hm : m ∈ (marketRun M.init events).markets) :
    historyLength = 60 ∧
      m.history.length ≤ historyLength ∧
      (∀ (h : List ℚ) (q : ℚ), h.length = historyLength →
        pushPriceHistory h q = h.tail ++ [q]) ∧
      (∀ r : ℚ, (updateMarket m r).history = m.history.tail ++ [(updateMarket m r).price]) ∧
      (∀ r : ℚ, (updateMarket m r).history.length ≤ historyLength) := by
  have hinv := marketRun_historyInv events M.init (init_historyInv M) m hm
  refine ⟨rfl, le_of_eq hinv, pushPriceHistory_full, ?_, ?_⟩
  · intro r
    exact pushPriceHistory_full m.history _ hinv
  · intro r
    exact le_of_eq (pushPriceHistory_length m.history _ hinv)

/-- C21 at a concrete input: ZEO after init and one tick with all draws 0. -/
theorem C21_witness :
    ∃ m ∈ (marketRun MarketEngine.initial.init
        [MarketEvent.updatePrices (fun _ => 0)]).markets,
      m.symbol = "ZEO" ∧ m.history.length ≤ historyLength := by
  have hget : (marketRun MarketEngine.initial.init
        [MarketEvent.updatePrices (fun _ => 0)]).markets[3]?
      = some (updateMarket (defaultMarket "ZEO" 150 Volatility.medium 0.01) 0) := by
    show (updateAll defaultMarkets (fun _ => 0))[3]? = _
    rw [updateAll_getElem?]
    rfl
  have hmem := List.getElem?_mem hget
  have h := C21_history_ring_buffer MarketEngine.initial _ _ hmem
  exact ⟨_, hmem, rfl, h.2.1⟩

/-- C22 fails as stated: on the initial engine no interval is held (intervalId is null),
and a call of updatePrices still moves ZEO from 150 to 150.153. -/
theorem C22_counterexample :
    MarketEngine.initial.intervalId = false ∧
      getPrice MarketEngine.initial referenceSymbol = JsPrice.num 150 ∧
      getPrice (updatePrices MarketEngine.initial (fun _ => 0.75)) referenceSymbol
        = JsPrice.num 150.153 ∧
      getPrice (updatePrices MarketEngine.initial (fun _ => 0.75)) referenceSymbol
        ≠ getPrice MarketEngine.initial referenceSymbol := by
  refine ⟨rfl, zeo_initial, zeo_after_tick, ?_⟩
  rw [zeo_initial, zeo_after_tick]
  intro h
  injection h with h
  norm_num at h

/-- C22 as amended: updatePrices does not look at intervalId. Called with or without an
interval held it updates every market in the same way and leaves intervalId as it was;
the operations that change nothing when the simulator is stopped are stop itself and, for
the markets, start and stop in any state. -/
theorem C22_updatePrices_ignores_interval (M : MarketEngine) (draws : ℕ → ℚ) :
    (updatePrices M draws).markets = updateAll M.markets draws ∧
      (updatePrices { M with intervalId := false } draws).markets
        = (updatePrices { M with intervalId := true } draws).markets ∧
      (updatePrices M draws).intervalId = M.intervalId ∧
      (M.intervalId = false → M.stop = M) ∧
      M.stop.stop = M.stop ∧
      M.stop.markets = M.markets ∧
      M.start.markets = M.markets := by
  refine ⟨rfl, rfl, rfl, ?_, ?_, ?_, ?_⟩
  · intro h
    simp [MarketEngine.stop, h]
  · cases h : M.intervalId <;> simp [MarketEngine.stop, h]
  · cases h : M.intervalId <;> simp [MarketEngine.stop, h]
  · cases h : M.intervalId <;> simp [MarketEngine.start, h]

/-- C22 as amended, at a concrete input: the stopped initial engine. -/
theorem C22_witness :
    (updatePrices MarketEngine.initial (fun _ => 0.75)).markets
        = updateAll MarketEngine.initial.markets (fun _ => 0.75) ∧
      MarketEngine.initial.stop = MarketEngine.initial :=
  ⟨(C22_updatePrices_ignores_interval MarketEngine.initial (fun _ => 0.75)).1,
    (C22_updatePrices_ignores_interval MarketEngine.initial (fun _ => 0.75)).2.2.2.1 rfl⟩

/-- C23 on the code: for a symbol that no registry entry carries and that is a property
name inherited from Object.prototype (constructor, toString, __proto__, ...), getPrice
returns null, but getMarket returns the inherited member instead of null and
getPriceHistory returns the inherited member instead of an empty list. -/
theorem C23_inherited_name_reads_are_not_absent (M : MarketEngine) (symbol : String)
    (hin : symbol ∈ objectPrototypeKeys) (hun : ∀ m ∈ M.markets, m.symbol ≠ symbol) :
    getPrice M symbol = JsPrice.null ∧
      getMarket M symbol = MarketRead.inherited symbol ∧
      getMarket M symbol ≠ MarketRead.null ∧
      getPriceHistory M symbol = HistoryRead.inherited symbol ∧
      getPriceHistory M symbol ≠ HistoryRead.array [] := by
  have hl := lookup_eq_none M symbol hun
  have hm : getMarket M symbol = MarketRead.inherited symbol := by
    simp [getMarket, hl, hin]
  have hh : getPriceHistory M symbol = HistoryRead.inherited symbol := by
    simp [getPriceHistory, hl, hin]
  refine ⟨by simp [getPrice, hl], hm, ?_, hh, ?_⟩
  · rw [hm]
    intro h
    cases h
  · rw [hh]
    intro h
    cases h

/-- C23 at a concrete input: the symbol constructor on the engine right after init. -/
theorem C23_witness :
    getMarket MarketEngine.initial "constructor" = MarketRead.inherited "constructor" ∧
      getPriceHistory MarketEngine.initial "constructor"
        = HistoryRead.inherited "constructor" ∧
      getPriceHistory MarketEngine.initial "constructor" ≠ HistoryRead.array [] :=
  ⟨(C23_inherited_name_reads_are_not_absent MarketEngine.initial "constructor" (by decide)
      (by decide)).2.1,
    (C23_inherited_name_reads_are_not_absent MarketEngine.initial "constructor" (by decide)
      (by decide)).2.2.2.1,
    (C23_inherited_name_reads_are_not_absent MarketEngine.initial "constructor" (by decide)
      (by decide)).2.2.2.2⟩

/-- C24: right after the synchronous part of simulateEvent, the market at every position
has either been skipped by its draw (draw > 0.7) and is exactly as before, its trend
included, or has been selected and differs from before only in its trend, which is
s times intensity times (0.5 + 0.5u) for the next draw u, with s = +1 for the kind bull
and -1 for any other kind; no market is added or removed, and no price or history
changes. -/
theorem C24_simulateEvent_touches_selected_only (M : MarketEngine) (kind : String)
    (intensity : ℚ) (draws : ℕ → ℚ) (i : ℕ) (m : Market) (hget : M.markets[i]? = some m) :
    (simulateEvent M kind intensity draws).markets.length = M.markets.length ∧
      (simulateEvent M kind intensity draws).listeners = M.listeners ∧
      (simulateEvent M kind intensity draws).intervalId = M.intervalId ∧
      ∃ k : ℕ,
        (draws k > 0.7 ∧ (simulateEvent M kind intensity draws).markets[i]? = some m) ∨
        (¬ draws k > 0.7 ∧ (simulateEvent M kind intensity draws).markets[i]?
          = some { m with
              trend := (if kind = "bull" then 1 else -1) * intensity
                * (0.5 + 0.5 * draws (k + 1)) }) := by
  refine ⟨simulateTrends_length _ _ _, rfl, rfl, ?_⟩
  obtain ⟨k, hk⟩ := simulateTrends_getElem?
    (if kind = "bull" then intensity else -intensity) M.markets draws i m hget
  refine ⟨k, ?_⟩
  have hs : (if kind = "bull" then intensity else -intensity) * (draws (k + 1) * 0.5 + 0.5)
      = (if kind = "bull" then 1 else -1) * intensity * (0.5 + 0.5 * draws (k + 1)) := by
    split_ifs <;> ring
  rcases hk with hk | hk
  · exact Or.inl hk
  · right
    rw [← hs]
    exact hk

/-- C24 at a concrete input: a bear event of intensity 1 on the initial engine, for BTC at
position 0. -/
theorem C24_witness :
    (simulateEvent MarketEngine.initial "bear" 1 (fun _ => 0)).markets.length
      = MarketEngine.initial.markets.length :=
  (C24_simulateEvent_touches_selected_only MarketEngine.initial "bear" 1 (fun _ => 0) 0
    (defaultMarket "BTC" 42500 Volatility.high 0.02) rfl).1

/-- C25: one updatePrices call invokes the subscribed callbacks once each, in the order of
the listeners list, and hands each the registry as it is after all markets were updated;
subscribe appends at the end, so the list is in subscription order; unsubscribe removes
the callback, which is then no longer invoked, and keeps the other callbacks in their
order. -/
theorem C25_subscribers_notified_in_order (M : MarketEngine) (draws : ℕ → ℚ)
    (callbacks : List ℕ) (callback : ℕ) :
    updatePricesCalls M draws
        = M.listeners.map (fun cb => (cb, updateAll M.markets draws)) ∧
      (updatePricesCalls M draws).map Prod.fst = M.listeners ∧
      (callbacks.foldl subscribe M).listeners = M.listeners ++ callbacks ∧
      (unsubscribe M callback).listeners = M.listeners.filter (fun cb => cb ≠ callback) ∧
      callback ∉ (unsubscribe M callback).listeners ∧
      callback ∉ (updatePricesCalls (unsubscribe M callback) draws).map Prod.fst ∧
      (∀ cb, cb ≠ callback → (cb ∈ (unsubscribe M callback).listeners ↔ cb ∈ M.listeners)) ∧
      List.Sublist (unsubscribe M callback).listeners M.listeners := by
  have hfst : ∀ N : MarketEngine, (updatePricesCalls N draws).map Prod.fst = N.listeners := by
    intro N
    simp [updatePricesCalls, notifyListeners, updatePrices, List.map_map, Function.comp_def]
  have hfold : ∀ (cbs : List ℕ) (N : MarketEngine),
      (cbs.foldl subscribe N).listeners = N.listeners ++ cbs := by
    intro cbs
    induction cbs with
    | nil => intro N; simp
    | cons c rest ih =>
      intro N
      rw [List.foldl_cons, ih]
      simp [subscribe]
  have hnot : callback ∉ (unsubscribe M callback).listeners := by
    simp [unsubscribe, List.mem_filter]
  refine ⟨rfl, hfst M, hfold callbacks M, rfl, hnot, ?_, ?_, ?_⟩
  · rw [hfst]
    exact hnot
  · intro cb hne
    simp [unsubscribe, List.mem_filter, hne]
  · exact List.filter_sublist _

/-- C25 at a concrete input: callbacks 1, 2, 3 subscribed in that order, then 2
unsubscribed. -/
theorem C25_witness :
    ([1, 2, 3].foldl subscribe MarketEngine.initial).listeners
        = MarketEngine.initial.listeners ++ [1, 2, 3] ∧
      (2 : ℕ) ∉ (unsubscribe ([1, 2, 3].foldl subscribe MarketEngine.initial) 2).listeners :=
  ⟨(C25_subscribers_notified_in_order MarketEngine.initial (fun _ => 0) [1, 2, 3] 2).2.2.1,
    (C25_subscribers_notified_in_order ([1, 2, 3].foldl subscribe MarketEngine.initial)
      (fun _ => 0) [] 2).2.2.2.2.1⟩

/-- C26 on the code: in a session where Store.balance and wallet_main are equal, an
accepted placeCrashBet lowers Store.balance by the amount and leaves wallet_main as it
was, so the two balances differ afterwards. -/
theorem C26_crash_bet_leaves_wallet_main (a : AppState) (amount rand u : ℚ)
    (hidle : a.games.isPlaying = false) (hmin : 10 ≤ amount) (hbal : amount ≤ a.games.balance)
    (heq : a.walletMain = some a.games.balance) :
    (gameStep a (GameEvent.placeCrashBet amount rand u)).games.balance
        = a.games.balance - amount ∧
      (gameStep a (GameEvent.placeCrashBet amount rand u)).walletMain
        = some a.games.balance ∧
      (gameStep a (GameEvent.placeCrashBet amount rand u)).walletMain
        ≠ some (gameStep a (GameEvent.placeCrashBet amount rand u)).games.balance := by
  have hb : (gameStep a (GameEvent.placeCrashBet amount rand u)).games.balance
      = a.games.balance - amount := by
    show (placeCrashBet a.games amount rand u).balance = _
    rw [placeCrashBet_accept a.games amount rand u hidle hmin hbal]
  have hw : (gameStep a (GameEvent.placeCrashBet amount rand u)).walletMain
      = some a.games.balance := heq
  refine ⟨hb, hw, ?_⟩
  rw [hw, hb]
  intro h
  injection h with h
  linarith

/-- C26 at a concrete input: after a first login both balances are 10000; a crash bet of
100 leaves Store.balance at 9900 and wallet_main at 10000. -/
theorem C26_witness :
    sessionExample.walletMain = some sessionExample.games.balance ∧
      (gameStep sessionExample (GameEvent.placeCrashBet 100 (1 / 2) (1 / 2))).games.balance
        = sessionExample.games.balance - 100 ∧
      (gameStep sessionExample (GameEvent.placeCrashBet 100 (1 / 2) (1 / 2))).walletMain
        = some sessionExample.games.balance :=
  ⟨by decide,
    (C26_crash_bet_leaves_wallet_main sessionExample 100 (1 / 2) (1 / 2) rfl (by norm_num)
      (by norm_num [sessionExample, login, GamesEngine.initial]) (by decide)).1,
    (C26_crash_bet_leaves_wallet_main sessionExample 100 (1 / 2) (1 / 2) rfl (by norm_num)
      (by norm_num [sessionExample, login, GamesEngine.initial]) (by decide)).2.1⟩

/-- C27 on the code: while a round is playing and not cashed out, setQuickBet on a bet
field showing v replaces betAmount by max(10, v + amount) without touching the balance or
the round, and the cash-out that follows pays that new betAmount times the multiplier. -/
theorem C27_setQuickBet_changes_stake (s : GamesEngine) (v amount : ℤ)
    (hp : s.isPlaying = true) (hc : s.hasCashedOut = false) :
    (setQuickBet s (some v) amount).betAmount = ((max 10 (v + amount) : ℤ) : ℚ) ∧
      (setQuickBet s (some v) amount).isPlaying = true ∧
      (setQuickBet s (some v) amount).balance = s.balance ∧
      (cashOutCrash (setQuickBet s (some v) amount)).balance
        = s.balance + ((max 10 (v + amount) : ℤ) : ℚ) * s.currentMultiplier := by
  refine ⟨rfl, hp, rfl, ?_⟩
  rw [cashOutCrash_pay (setQuickBet s (some v) amount) hp hc]
  rfl

/-- C27 at a concrete input: bet 100 debited (balance 900, multiplier 1.00), the button
+1K pressed on a field showing 100, then a cash-out. -/
theorem C27_witness :
    (setQuickBet freshExample (some 100) 1000).betAmount = ((max 10 (100 + 1000) : ℤ) : ℚ) ∧
      (cashOutCrash (setQuickBet freshExample (some 100) 1000)).balance
        = freshExample.balance + ((max 10 (100 + 1000) : ℤ) : ℚ) * freshExample.currentMultiplier :=
  ⟨(C27_setQuickBet_changes_stake freshExample 100 1000 rfl rfl).1,
    (C27_setQuickBet_changes_stake freshExample 100 1000 rfl rfl).2.2.2⟩

/-- C28: in every state reached from a state with no round playing by bets (draws in
[0,1)), frames, cash-outs, crashes and high/low calls, a playing round has
1 ≤ currentMultiplier ≤ crashPoint; so when cashOutCrash pays, it pays
betAmount × currentMultiplier, which is at least betAmount and at most
betAmount × crashPoint. -/
theorem C28_cash_out_bounded_by_crash_point (s : GamesEngine) (events : List GameEvent)
    (hidle : s.isPlaying = false) (hev : ∀ e ∈ events, e.drawsInRange)
    (hp : (run s events).isPlaying = true) (hc : (run s events).hasCashedOut = false) :
    1 ≤ (run s events).currentMultiplier ∧
      (run s events).currentMultiplier ≤ (run s events).crashPoint ∧
      (cashOutCrash (run s events)).balance
        = (run s events).balance + (run s events).betAmount * (run s events).currentMultiplier ∧
      (run s events).betAmount ≤ (run s events).betAmount * (run s events).currentMultiplier ∧
      (run s events).betAmount * (run s events).currentMultiplier
        ≤ (run s events).betAmount * (run s events).crashPoint := by
  have hinv0 : PayoutInv s := by
    intro h
    rw [hidle] at h
    cases h
  obtain ⟨hm, hcp, hb⟩ := run_payoutInv events s hev hinv0 hp
  refine ⟨hm, hcp, ?_, ?_, ?_⟩
  · rw [cashOutCrash_pay _ hp hc]
  · nlinarith
  · exact mul_le_mul_of_nonneg_left hcp hb

/-- C28 at a concrete input: a bet of 100 with draws 0.9 and 0.5, then one frame. -/
theorem C28_witness :
    1 ≤ (run idleExample
        [GameEvent.placeCrashBet 100 0.9 0.5, GameEvent.animateCrash]).currentMultiplier ∧
      (run idleExample
        [GameEvent.placeCrashBet 100 0.9 0.5, GameEvent.animateCrash]).currentMultiplier
        ≤ (run idleExample
          [GameEvent.placeCrashBet 100 0.9 0.5, GameEvent.animateCrash]).crashPoint := by
  have hstate : run idleExample [GameEvent.placeCrashBet 100 0.9 0.5, GameEvent.animateCrash]
      = { idleExample with
          balance := idleExample.balance - 100
          isPlaying := true
          hasCashedOut := false
          betAmount := 100
          currentMultiplier := growMultiplier 1.00
          crashPoint := drawCrashPoint 0.9 0.5 } := by
    show animateCrash (placeCrashBet idleExample 100 0.9 0.5) = _
    rw [placeCrashBet_accept idleExample 100 0.9 0.5 rfl (by norm_num)
      (by norm_num [idleExample, GamesEngine.initial])]
    rw [animateCrash_running _ ⟨rfl, rfl, rfl, rfl⟩]
    have hlt : ¬ growMultiplier 1.00 ≥ drawCrashPoint 0.9 0.5 := by
      norm_num [growMultiplier, drawCrashPoint]
    rw [if_neg hlt]
  have h := C28_cash_out_bounded_by_crash_point idleExample
    [GameEvent.placeCrashBet 100 0.9 0.5, GameEvent.animateCrash] rfl
    (by
      intro e he
      simp only [List.mem_cons, List.mem_singleton, List.not_mem_nil, or_false] at he
      rcases he with rfl | rfl
      · exact ⟨by norm_num, by norm_num, by norm_num, by norm_num⟩
      · exact True.intro)
    (by rw [hstate]) (by rw [hstate])
  exact ⟨h.1, h.2.1⟩

/-- C29 fails as stated: with a wallet of 150 and an empty portfolio, one ZEO is sold at
150 (wallet 0); ZEO then rises to 450, and closing the position adds 150 + (150 - 450),
which leaves the wallet main balance at -150. -/
theorem C29_counterexample :
    smallWallet.walletMain = some 150 ∧ smallWallet.portfolio = [] ∧
      getPrice MarketEngine.initial "ZEO" = JsPrice.num 150 ∧
      getPrice surgeMarket "ZEO" = JsPrice.num 450 ∧
      (tradeRun smallWallet
        [TradeEvent.executeTrade MarketEngine.initial "sell" 1,
          TradeEvent.closePosition surgeMarket 0]).walletMain = some (-150) ∧
      (tradeRun smallWallet
        [TradeEvent.executeTrade MarketEngine.initial "sell" 1,
          TradeEvent.closePosition surgeMarket 0]).mainBalance < 0 := by
  have hopen : executeTrade MarketEngine.initial smallWallet "sell" 1
      = { smallWallet with
          walletMain := some (smallWallet.mainBalance - ((1 : ℤ) : ℚ) * 150)
          games := { smallWallet.games with
            balance := smallWallet.mainBalance - ((1 : ℤ) : ℚ) * 150 }
          portfolio := smallWallet.portfolio ++
            [{ symbol := "ZEO", entry := 150, qty := 1, type := "sell" }] } := by
    have h150 : jsOr (getPrice MarketEngine.initial "ZEO") 150 = 150 := by
      rw [show getPrice MarketEngine.initial "ZEO" = JsPrice.num 150 from zeo_initial]
      norm_num [jsOr]
    have h := executeTrade_accept MarketEngine.initial smallWallet "sell" 1 (by norm_num)
      (by rw [h150]; norm_num [smallWallet, AppState.mainBalance])
    rw [h150] at h
    exact h
  have hclose : (tradeRun smallWallet
        [TradeEvent.executeTrade MarketEngine.initial "sell" 1,
          TradeEvent.closePosition surgeMarket 0]).walletMain = some (-150) := by
    show (closePosition surgeMarket
      (executeTrade MarketEngine.initial smallWallet "sell" 1) 0).walletMain = _
    rw [hopen]
    have hret : totalReturn surgeMarket { symbol := "ZEO", entry := 150, qty := 1, type := "sell" }
        = -150 := by
      rw [totalReturn_sell _ _ (by decide)]
      show (2 * (150 : ℚ) - jsOr (getPrice surgeMarket "ZEO") 150) * ((1 : ℤ) : ℚ) = -150
      rw [zeo_surge]
      norm_num [jsOr]
    show some (_ + totalReturn surgeMarket
      { symbol := "ZEO", entry := 150, qty := 1, type := "sell" }) = _
    rw [hret]
    norm_num [smallWallet, AppState.mainBalance]
  refine ⟨rfl, rfl, zeo_initial, zeo_surge, hclose, ?_⟩
  unfold AppState.mainBalance
  rw [hclose]
  norm_num

/-- C29 as amended: from a wallet main balance ≥ 0 and an empty portfolio, every sequence
of executeTrade and closePosition calls made at positive prices, in which no sell position
is closed at more than twice its entry price, ends with a wallet main balance ≥ 0. -/
theorem C29_wallet_nonnegative_when_covered (a : AppState) (events : List TradeEvent)
    (hbal : 0 ≤ a.mainBalance) (hempty : a.portfolio = []) (hcov : Covered a events) :
    0 ≤ (tradeRun a events).mainBalance := by
  have hinv : TradeInv a := by
    refine ⟨hbal, ?_⟩
    intro pos hpos
    rw [hempty] at hpos
    cases hpos
  exact (tradeRun_tradeInv events a hcov hinv).1

/-- C29 as amended, at a concrete input: one ZEO sold at 150 and closed at the same price. -/
theorem C29_witness :
    0 ≤ (tradeRun smallWallet
      [TradeEvent.executeTrade MarketEngine.initial "sell" 1,
        TradeEvent.closePosition MarketEngine.initial 0]).mainBalance := by
  have hpos : PricesPositive MarketEngine.initial := by
    intro m hm
    exact lt_of_lt_of_le (by norm_num) (init_priceInv _ m hm).1
  have h150 : jsOr (getPrice MarketEngine.initial "ZEO") 150 = 150 := by
    rw [show getPrice MarketEngine.initial "ZEO" = JsPrice.num 150 from zeo_initial]
    norm_num [jsOr]
  have hopen := executeTrade_accept MarketEngine.initial smallWallet "sell" 1 (by norm_num)
    (by rw [h150]; norm_num [smallWallet, AppState.mainBalance])
  rw [h150] at hopen
  apply C29_wallet_nonnegative_when_covered smallWallet _
    (by norm_num [smallWallet, AppState.mainBalance]) rfl
  refine ⟨hpos, ⟨hpos, ?_⟩, True.intro⟩
  intro pos hget _
  have hp : pos = { symbol := "ZEO", entry := 150, qty := 1, type := "sell" } := by
    have hg : (tradeStep smallWallet
        (TradeEvent.executeTrade MarketEngine.initial "sell" 1)).portfolio[0]?
        = some { symbol := "ZEO", entry := 150, qty := 1, type := "sell" } := by
      show (executeTrade MarketEngine.initial smallWallet "sell" 1).portfolio[0]? = _
      rw [hopen]
      rfl
    rw [hg] at hget
    exact (Option.some.inj hget).symm
  rw [hp]
  show jsOr (getPrice MarketEngine.initial "ZEO") 150 ≤ 2 * 150
  rw [h150]
  norm_num

/-- C30: for every trade type, quantity q > 0 and market whose trade price p satisfies
q p ≤ balance, executeTrade followed by closePosition of the new position (the last of
the portfolio) on the same market restores the wallet main balance and the portfolio;
Store.balance then holds the same value. -/
theorem C30_open_close_round_trip (M : MarketEngine) (a : AppState) (type : String) (qty : ℤ)
    (hq : 0 < qty) (hbal : (qty : ℚ) * jsOr (getPrice M "ZEO") 150 ≤ a.mainBalance) :
    (executeTrade M a type qty).mainBalance
        = a.mainBalance - (qty : ℚ) * jsOr (getPrice M "ZEO") 150 ∧
      (executeTrade M a type qty).portfolio.length = a.portfolio.length + 1 ∧
      (closePosition M (executeTrade M a type qty) a.portfolio.length).mainBalance
        = a.mainBalance ∧
      (closePosition M (executeTrade M a type qty) a.portfolio.length).portfolio
        = a.portfolio ∧
      (closePosition M (executeTrade M a type qty) a.portfolio.length).games.balance
        = a.mainBalance := by
  have hopen := executeTrade_accept M a type qty hq hbal
  have hret : totalReturn M
      { symbol := "ZEO", entry := jsOr (getPrice M "ZEO") 150, qty := qty, type := type }
      = jsOr (getPrice M "ZEO") 150 * qty := by
    by_cases ht : type = "buy"
    · rw [totalReturn_buy _ _ ht]
      show jsOr (getPrice M "ZEO") (jsOr (getPrice M "ZEO") 150) * (qty : ℚ) = _
      rw [jsOr_idem]
    · rw [totalReturn_sell _ _ ht]
      show (2 * jsOr (getPrice M "ZEO") 150
        - jsOr (getPrice M "ZEO") (jsOr (getPrice M "ZEO") 150)) * (qty : ℚ) = _
      rw [jsOr_idem]
      ring
  have hget : (executeTrade M a type qty).portfolio[a.portfolio.length]?
      = some { symbol := "ZEO", entry := jsOr (getPrice M "ZEO") 150, qty := qty, type := type } := by
    rw [hopen]
    exact List.getElem?_concat_length _ _
  have hclose : closePosition M (executeTrade M a type qty) a.portfolio.length
      = { executeTrade M a type qty with
          walletMain := some ((executeTrade M a type qty).mainBalance + totalReturn M
            { symbol := "ZEO", entry := jsOr (getPrice M "ZEO") 150, qty := qty, type := type })
          games := { (executeTrade M a type qty).games with
            balance := (executeTrade M a type qty).mainBalance + totalReturn M
              { symbol := "ZEO", entry := jsOr (getPrice M "ZEO") 150, qty := qty, type := type } }
          portfolio := (executeTrade M a type qty).portfolio.eraseIdx a.portfolio.length } := by
    unfold closePosition
    rw [hget]
  have hmain : (executeTrade M a type qty).mainBalance
      = a.mainBalance - (qty : ℚ) * jsOr (getPrice M "ZEO") 150 := by
    rw [hopen]
    rfl
  have hsum : (executeTrade M a type qty).mainBalance + totalReturn M
      { symbol := "ZEO", entry := jsOr (getPrice M "ZEO") 150, qty := qty, type := type }
      = a.mainBalance := by
    rw [hmain, hret]
    ring
  refine ⟨hmain, ?_, ?_, ?_, ?_⟩
  · rw [hopen]
    simp
  · rw [hclose]
    show _ + _ = _
    exact hsum
  · rw [hclose]
    show (executeTrade M a type qty).portfolio.eraseIdx a.portfolio.length = _
    rw [hopen]
    show (a.portfolio ++ [_]).eraseIdx a.portfolio.length = _
    rw [List.eraseIdx_append_of_length_le (le_refl _)]
    simp
  · rw [hclose]
    exact hsum

/-- C30 at a concrete input: one ZEO bought at 150 with a wallet of 150 and closed at once. -/
theorem C30_witness :
    (closePosition MarketEngine.initial
        (executeTrade MarketEngine.initial smallWallet "buy" 1)
        smallWallet.portfolio.length).mainBalance = smallWallet.mainBalance ∧
      (closePosition MarketEngine.initial
        (executeTrade MarketEngine.initial smallWallet "buy" 1)
        smallWallet.portfolio.length).portfolio = smallWallet.portfolio := by
  have h150 : jsOr (getPrice MarketEngine.initial "ZEO") 150 = 150 := by
    rw [show getPrice MarketEngine.initial "ZEO" = JsPrice.num 150 from zeo_initial]
    norm_num [jsOr]
  have h := C30_open_close_round_trip MarketEngine.initial smallWallet "buy" 1 (by norm_num)
    (by rw [h150]; norm_num [smallWallet, AppState.mainBalance])
  exact ⟨h.2.2.1, h.2.2.2.1⟩

end Zeo
